import Mathlib

/-!
Verification development for `RTProfileDevice::logTrace`
(src/runtime_src/xdp/profile/rt_profile_device.cpp), the device trace decoder
and timeline-reconstruction engine.

The C++ code is shallowly embedded: machine integers become `ℕ` with explicit
`% 2^32` / `% 2^64` at the points where the C++ arithmetic wraps or truncates,
`double` arithmetic becomes `ℚ` (all quantities of interest are exact decimal
fractions), the per-slot C arrays and `std::queue`s become functions `ℕ → ℕ` /
`ℕ → List ℕ`, and the single mutable pass over the trace vector becomes a fold
over a loop-state structure.  The engine is modelled at the one fixed monitor
`type` argument a call uses, so the per-type C arrays (`mTrainSlope[type]`,
`mPrevTimestamp[type]`, ...) become scalar fields.

A few declarations used by the source live in headers that are not part of the
repository snapshot (`rt_profile_device.h`, `xclperf.h`); each such definition
carries a doc comment starting with `Modelled from the spec:` and is faithful
to the specification text.  None of the claims below depends on the particular
numeric values of those constants.
-/

namespace XRTTrace

/-- One raw trace sample (the fields of `xclTraceResults` read by `logTrace`).
All fields are machine integers, modelled as `ℕ`; wrap/truncation is applied
explicitly at each use site exactly where the C++ does it. -/
structure TraceRecord where
  Timestamp : ℕ
  HostTimestamp : ℕ
  TraceID : ℕ
  EventFlags : ℕ
  EventType : ℕ
  Reserved : ℕ
  Overflow : ℕ
deriving Repr, DecidableEq

/-- One output record (the fields of `DeviceTrace` written by `logTrace`).
`Ty` models the C++ field `Type` (a Lean keyword); `Kind` models the
`e_device_kind` enum as a numeral. `Start`, `End`, `TraceStart` are the
`double` host-millisecond fields, modelled as `ℚ`. -/
structure DeviceTrace where
  SlotNum : ℕ
  Name : String
  Ty : String
  Kind : ℕ
  StartTime : ℕ
  EndTime : ℕ
  Start : ℚ
  End : ℚ
  TraceStart : ℚ
  BurstLength : ℕ
  NumBytes : ℕ
deriving Repr, DecidableEq

/-- `DeviceTrace::DEVICE_KERNEL` enum value (numeral chosen arbitrarily;
only equality with itself is ever used). -/
def DEVICE_KERNEL : ℕ := 1

/-- A default-constructed `DeviceTrace` (the local `kernelTrace` variable is
default-constructed once per call; value-initialized fields modelled as 0/""). -/
def dfltTrace : DeviceTrace :=
  { SlotNum := 0, Name := "", Ty := "", Kind := 0, StartTime := 0, EndTime := 0,
    Start := 0, End := 0, TraceStart := 0, BurstLength := 0, NumBytes := 0 }

/-- Truncation to `uint32_t`. -/
def wrap32 (n : ℕ) : ℕ := n % 2 ^ 32

/-- `uint64_t` subtraction `a - b` with two's-complement wraparound
(defined for all `ℕ` inputs; it agrees with C++ on all `uint64_t` values). -/
def sub64 (a b : ℕ) : ℕ := (a + 2 ^ 64 - b % 2 ^ 64) % 2 ^ 64

/-- The source expression `timestamp - startTime + 1` (`uint64_t` arithmetic),
used for `BurstLength`. -/
def burstLen (startT endT : ℕ) : ℕ := (sub64 endT startT + 1) % 2 ^ 64

/-- The `getBit(word, bit)` macro of the source. -/
def getBit (word bit : ℕ) : ℕ := (word >>> bit) % 2

/-- Modelled from the spec: the wrap-addend constant `LOOP_ADD_TIME`
compensating device-counter wraparound in emulation mode; its value is defined
in a header that is not in the repository snapshot, and no claim depends on it. -/
def LOOP_ADD_TIME : ℕ := 2 ^ 17

/-- Modelled from the spec: the wrap-addend constant `LOOP_ADD_TIME_SPM` for
hardware mode; value from a missing header, no claim depends on it. -/
def LOOP_ADD_TIME_SPM : ℕ := 2 ^ 17

/-- Modelled from the spec: bit positions of the emulation-mode memory-monitor
event flags, in the order the spec lists them
(write-first / write-last / read-first / read-last); exact positions are in a
missing header, and only their distinctness matters to the claims. -/
def XAPM_WRITE_FIRST : ℕ := 0

/-- Modelled from the spec: see `XAPM_WRITE_FIRST`. -/
def XAPM_WRITE_LAST : ℕ := 1

/-- Modelled from the spec: see `XAPM_WRITE_FIRST`. -/
def XAPM_READ_FIRST : ℕ := 2

/-- Modelled from the spec: see `XAPM_WRITE_FIRST`. -/
def XAPM_READ_LAST : ℕ := 3

/-- Modelled from the spec: the four compute-unit category bit masks
{Kernel, StallInternal, StallStream, StallExternal}; the source updates the
started-bitmask with `^= (TraceID & 0xf)`, so they are the low four bits. -/
def XSAM_TRACE_CU_MASK : ℕ := 1

/-- Modelled from the spec: see `XSAM_TRACE_CU_MASK`. -/
def XSAM_TRACE_STALL_INT_MASK : ℕ := 2

/-- Modelled from the spec: see `XSAM_TRACE_CU_MASK`. -/
def XSAM_TRACE_STALL_STR_MASK : ℕ := 4

/-- Modelled from the spec: see `XSAM_TRACE_CU_MASK`. -/
def XSAM_TRACE_STALL_EXT_MASK : ℕ := 8

/-- Modelled from the spec: the explicit start marker of the `eventType`
start/end enum for non-emulation memory monitors (value from a missing header;
only distinctness from the end marker matters). -/
def XCL_PERF_MON_START_EVENT : ℕ := 4

/-- Modelled from the spec: the explicit end marker, see
`XCL_PERF_MON_START_EVENT`. -/
def XCL_PERF_MON_END_EVENT : ℕ := 5

/-- Modelled from the spec: number of compute-unit monitor slots
(`XSAM_MAX_NUMBER_SLOTS`); consistent with the id range 64..544 mapping to
slots 0..30 via `(id - 64) / 16`. -/
def XSAM_MAX_NUMBER_SLOTS : ℕ := 31

/-- Modelled from the spec: number of memory monitor slots
(`XSPM_MAX_NUMBER_SLOTS`); consistent with the id range 2..61 mapping to
slots via `id / 2`. -/
def XSPM_MAX_NUMBER_SLOTS : ℕ := 31

/-- Modelled from the spec: the `IS_READ` macro on trace ids. Ids 2..61 encode
a memory slot as `id / 2`, two consecutive ids per slot, one for reads and one
for writes; the macro is in a missing header, so the read/write polarity is
modelled as the even/odd parity. No claim depends on the polarity. -/
def IS_READ (id : ℕ) : Bool := id % 2 == 0

/-- Modelled from the spec: the `IS_WRITE` macro, see `IS_READ`. -/
def IS_WRITE (id : ℕ) : Bool := id % 2 == 1

/-- Modelled from the spec: `getTimestampNsec` is declared in
`rt_profile_device.h`, which is not in the repository snapshot.  Per spec §4.2,
in emulation mode host timestamps arrive per-record already in the host time
domain and only need unit conversion, so the map is modelled as the identity
on nanoseconds. -/
def getTimestampNsec (t : ℕ) : ℕ := t

/-- The engine state persisting across `logTrace` calls: the data members of
`RTProfileDevice` that `logTrace` reads or writes, at the fixed monitor `type`
of the call (the per-type C arrays become scalar fields).  Per-slot arrays and
queues become total functions from the slot index. -/
structure Engine where
  mNumTraceEvents : ℕ
  mMaxTraceEvents : ℕ
  mPrevTimestamp : ℕ
  mTrainSlope : ℚ
  mTrainOffset : ℚ
  mTrainProgramStart : ℚ
  mEmuTraceMsecOneCycle : ℚ
  mReadStarts : ℕ → List ℕ
  mHostReadStarts : ℕ → List ℕ
  mWriteStarts : ℕ → List ℕ
  mHostWriteStarts : ℕ → List ℕ
  mAccelMonStartedEvents : ℕ → ℕ
  mAccelMonCuTime : ℕ → ℕ
  mAccelMonCuHostTime : ℕ → ℕ
  mAccelMonStallIntTime : ℕ → ℕ
  mAccelMonStallStrTime : ℕ → ℕ
  mAccelMonStallExtTime : ℕ → ℕ
  mAccelMonLastTranx : ℕ → ℕ
  mPerfMonLastTranx : ℕ → ℕ

/-- The engine state right after the constructor runs: counters zero, cap
`0x40000`, default slope `1000 / mTraceClockRateMHz` with the 300 MHz default
clock, all queues empty, all per-slot scalars zero. -/
def initEngine : Engine :=
  { mNumTraceEvents := 0, mMaxTraceEvents := 0x40000, mPrevTimestamp := 0,
    mTrainSlope := 1000 / 300, mTrainOffset := 0, mTrainProgramStart := 0,
    mEmuTraceMsecOneCycle := 0,
    mReadStarts := fun _ => [], mHostReadStarts := fun _ => [],
    mWriteStarts := fun _ => [], mHostWriteStarts := fun _ => [],
    mAccelMonStartedEvents := fun _ => 0, mAccelMonCuTime := fun _ => 0,
    mAccelMonCuHostTime := fun _ => 0, mAccelMonStallIntTime := fun _ => 0,
    mAccelMonStallStrTime := fun _ => 0, mAccelMonStallExtTime := fun _ => 0,
    mAccelMonLastTranx := fun _ => 0, mPerfMonLastTranx := fun _ => 0 }

/-- `RTProfileDevice::convertDeviceToHostTimestamp`:
`y = m*x + b` with `b` relative to program start, in milliseconds. -/
def Engine.convertDeviceToHostTimestamp (eng : Engine) (deviceTimestamp : ℕ) : ℚ :=
  eng.mTrainSlope * (deviceTimestamp : ℚ) / 1000000 +
    (eng.mTrainOffset - eng.mTrainProgramStart) / 1000000

/-- The state local to one `logTrace` call, threaded through the record loop:
the engine, the output sequence (`resultVector`), and the loop-carried locals
`prevHostTimestamp`, the calibration point `(x1, y1)`, and the reused
`kernelTrace` struct. `divZero` and `fwd` are ghost instrumentation: `divZero`
records that the clock-training division at the second record executed with a
zero denominator, and `fwd` records the indices of the records that reached a
decode path (memory-slot matcher or compute-unit tracker). -/
structure LoopSt where
  eng : Engine
  out : List DeviceTrace
  prevHost : ℕ
  x1 : ℚ
  y1 : ℚ
  kt : DeviceTrace
  divZero : Bool
  fwd : List ℕ

/-- Emulation-mode read half of the memory-slot branch (source lines 253-289):
push on read-first; on read-last with empty queue drop the record, otherwise
pop the oldest start, pad a zero-length host interval by
`mEmuTraceMsecOneCycle`, and append the transaction only if `End >= Start`. -/
def emuRead (r : TraceRecord) (s ts hostNs : ℕ) (ls : LoopSt) : LoopSt :=
  let ls1 :=
    if getBit r.EventFlags XAPM_READ_FIRST = 1 then
      { ls with eng := { ls.eng with
          mReadStarts := Function.update ls.eng.mReadStarts s (ls.eng.mReadStarts s ++ [ts]),
          mHostReadStarts :=
            Function.update ls.eng.mHostReadStarts s (ls.eng.mHostReadStarts s ++ [hostNs]) } }
    else ls
  if getBit r.EventFlags XAPM_READ_LAST = 1 then
    if (ls1.eng.mReadStarts s).isEmpty then ls1
    else
      let startTime := (ls1.eng.mReadStarts s).headD 0
      let hostStartTime := (ls1.eng.mHostReadStarts s).headD 0
      let eng2 := { ls1.eng with
          mReadStarts := Function.update ls1.eng.mReadStarts s (ls1.eng.mReadStarts s).tail,
          mHostReadStarts :=
            Function.update ls1.eng.mHostReadStarts s (ls1.eng.mHostReadStarts s).tail }
      let startQ : ℚ := (hostStartTime : ℚ) / 1000000
      let endQ0 : ℚ := (hostNs : ℚ) / 1000000
      let endQ : ℚ := if startQ = endQ0 then endQ0 + eng2.mEmuTraceMsecOneCycle else endQ0
      let readTrace : DeviceTrace :=
        { SlotNum := s, Name := "", Ty := "Read", Kind := 0,
          StartTime := startTime, EndTime := ts,
          Start := startQ, End := endQ, TraceStart := startQ,
          BurstLength := burstLen startTime ts, NumBytes := 0 }
      if startQ ≤ endQ then { ls1 with eng := eng2, out := ls1.out ++ [readTrace] }
      else { ls1 with eng := eng2 }
  else ls1

/-- Emulation-mode write-completion (source lines 230-250), reached only with a
non-empty write queue: pop the oldest write start and append the transaction
if `End >= Start` after zero-length padding. -/
def emuWriteEmit (ts hostNs : ℕ) (s : ℕ) (ls1 : LoopSt) : LoopSt :=
  let startTime := (ls1.eng.mWriteStarts s).headD 0
  let hostStartTime := (ls1.eng.mHostWriteStarts s).headD 0
  let eng2 := { ls1.eng with
      mWriteStarts := Function.update ls1.eng.mWriteStarts s (ls1.eng.mWriteStarts s).tail,
      mHostWriteStarts :=
        Function.update ls1.eng.mHostWriteStarts s (ls1.eng.mHostWriteStarts s).tail }
  let startQ : ℚ := (hostStartTime : ℚ) / 1000000
  let endQ0 : ℚ := (hostNs : ℚ) / 1000000
  let endQ : ℚ := if startQ = endQ0 then endQ0 + eng2.mEmuTraceMsecOneCycle else endQ0
  let writeTrace : DeviceTrace :=
    { SlotNum := s, Name := "", Ty := "Write", Kind := 0,
      StartTime := startTime, EndTime := ts,
      Start := startQ, End := endQ, TraceStart := startQ,
      BurstLength := burstLen startTime ts, NumBytes := 0 }
  if startQ ≤ endQ then { ls1 with eng := eng2, out := ls1.out ++ [writeTrace] }
  else { ls1 with eng := eng2 }

/-- Emulation-mode memory-slot branch (source lines 210-290): write-first push,
write-last completion (a write-last with an empty queue aborts the rest of the
record via `continue`), then the read half. -/
def emuMem (r : TraceRecord) (ts hostNs : ℕ) (ls : LoopSt) : LoopSt :=
  let s := r.TraceID / 2
  let ls1 :=
    if getBit r.EventFlags XAPM_WRITE_FIRST = 1 then
      { ls with eng := { ls.eng with
          mWriteStarts := Function.update ls.eng.mWriteStarts s (ls.eng.mWriteStarts s ++ [ts]),
          mHostWriteStarts :=
            Function.update ls.eng.mHostWriteStarts s (ls.eng.mHostWriteStarts s ++ [hostNs]) } }
    else ls
  if getBit r.EventFlags XAPM_WRITE_LAST = 1 then
    if (ls1.eng.mWriteStarts s).isEmpty then ls1
    else emuRead r s ts hostNs (emuWriteEmit ts hostNs s ls1)
  else emuRead r s ts hostNs ls1

/-- Emulation-mode compute-unit branch (source lines 291-318): toggle tracking
of the Kernel category; a completion appends the interval at the back and
derives the adaptive epsilon `mEmuTraceMsecOneCycle` from it. -/
def emuCU (r : TraceRecord) (ts hostNs : ℕ) (ls : LoopSt) : LoopSt :=
  let cuEvent := r.EventFlags &&& XSAM_TRACE_CU_MASK
  let s := r.TraceID - 64
  let kt0 := { ls.kt with
    SlotNum := s, Name := "OCL Region", Kind := DEVICE_KERNEL,
    EndTime := ts, End := (hostNs : ℚ) / 1000000, BurstLength := 0, NumBytes := 0 }
  let ls0 := { ls with kt := kt0 }
  if cuEvent ≠ 0 then
    if ls0.eng.mAccelMonStartedEvents s &&& XSAM_TRACE_CU_MASK ≠ 0 then
      let kt1 := { kt0 with
        Ty := "Kernel", StartTime := ls0.eng.mAccelMonCuTime s,
        Start := (ls0.eng.mAccelMonCuHostTime s : ℚ) / 1000000 }
      let eps : ℚ :=
        (kt1.End - kt1.Start) / (((2 * sub64 kt1.EndTime kt1.StartTime) % 2 ^ 64 : ℕ) : ℚ)
      { ls0 with kt := kt1, out := ls0.out ++ [kt1],
                 eng := { ls0.eng with
                   mEmuTraceMsecOneCycle := eps,
                   mAccelMonStartedEvents :=
                     Function.update ls0.eng.mAccelMonStartedEvents s
                       (ls0.eng.mAccelMonStartedEvents s ^^^ XSAM_TRACE_CU_MASK) } }
    else
      { ls0 with eng := { ls0.eng with
          mAccelMonCuHostTime := Function.update ls0.eng.mAccelMonCuHostTime s hostNs,
          mAccelMonCuTime := Function.update ls0.eng.mAccelMonCuTime s ts,
          mAccelMonStartedEvents :=
            Function.update ls0.eng.mAccelMonStartedEvents s
              (ls0.eng.mAccelMonStartedEvents s ^^^ XSAM_TRACE_CU_MASK) } }
  else ls0

/-- One emulation-mode record (source lines 162-177 and 209-320): accumulate
the device delta into `mPrevTimestamp` (`uint32_t`), apply the duplicate-host
skip rule, then dispatch on the id range. -/
def stepEmu (i : ℕ) (r : TraceRecord) (ls : LoopSt) : LoopSt :=
  let ts0 := wrap32 (r.Timestamp + ls.eng.mPrevTimestamp)
  let ts := if r.Overflow = 1 then wrap32 (ts0 + LOOP_ADD_TIME) else ts0
  let ls1 := { ls with eng := { ls.eng with mPrevTimestamp := ts } }
  if r.HostTimestamp = ls1.prevHost ∧ r.Timestamp = 1 then ls1
  else
    let hostNs := getTimestampNsec r.HostTimestamp
    let ls2 := { ls1 with prevHost := wrap32 r.HostTimestamp }
    if r.TraceID < 61 then emuMem r ts hostNs { ls2 with fwd := ls2.fwd ++ [i] }
    else if 64 ≤ r.TraceID ∧ r.TraceID ≤ 94 then
      emuCU r ts hostNs { ls2 with fwd := ls2.fwd ++ [i] }
    else ls2

/-- Hardware-mode SAM Kernel-category branch (source lines 336-348): a
completion inserts the interval at the *front* of the output, a start stores
the current device time. -/
def hwSAMcu (r : TraceRecord) (s : ℕ) (ls : LoopSt) : LoopSt :=
  if r.TraceID &&& XSAM_TRACE_CU_MASK ≠ 0 then
    if ls.eng.mAccelMonStartedEvents s &&& XSAM_TRACE_CU_MASK ≠ 0 then
      let startTime := ls.eng.mAccelMonCuTime s
      let kt := { ls.kt with
        Ty := "Kernel", StartTime := startTime,
        Start := ls.eng.convertDeviceToHostTimestamp startTime,
        TraceStart := ls.eng.convertDeviceToHostTimestamp startTime }
      { ls with kt := kt, out := kt :: ls.out }
    else { ls with eng :=
            { ls.eng with
              mAccelMonCuTime := Function.update ls.eng.mAccelMonCuTime s ls.kt.EndTime } }
  else ls

/-- Hardware-mode SAM internal-stall branch (source lines 349-361): a
completion appends the interval at the back. -/
def hwSAMstallInt (r : TraceRecord) (s : ℕ) (ls : LoopSt) : LoopSt :=
  if r.TraceID &&& XSAM_TRACE_STALL_INT_MASK ≠ 0 then
    if ls.eng.mAccelMonStartedEvents s &&& XSAM_TRACE_STALL_INT_MASK ≠ 0 then
      let startTime := ls.eng.mAccelMonStallIntTime s
      let kt := { ls.kt with
        Ty := "Intra-Kernel Dataflow Stall", StartTime := startTime,
        Start := ls.eng.convertDeviceToHostTimestamp startTime,
        TraceStart := ls.eng.convertDeviceToHostTimestamp startTime }
      { ls with kt := kt, out := ls.out ++ [kt] }
    else { ls with eng :=
            { ls.eng with
              mAccelMonStallIntTime :=
                Function.update ls.eng.mAccelMonStallIntTime s ls.kt.EndTime } }
  else ls

/-- Hardware-mode SAM stream-stall branch (source lines 362-374). -/
def hwSAMstallStr (r : TraceRecord) (s : ℕ) (ls : LoopSt) : LoopSt :=
  if r.TraceID &&& XSAM_TRACE_STALL_STR_MASK ≠ 0 then
    if ls.eng.mAccelMonStartedEvents s &&& XSAM_TRACE_STALL_STR_MASK ≠ 0 then
      let startTime := ls.eng.mAccelMonStallStrTime s
      let kt := { ls.kt with
        Ty := "Inter-Kernel Pipe Stall", StartTime := startTime,
        Start := ls.eng.convertDeviceToHostTimestamp startTime,
        TraceStart := ls.eng.convertDeviceToHostTimestamp startTime }
      { ls with kt := kt, out := ls.out ++ [kt] }
    else { ls with eng :=
            { ls.eng with
              mAccelMonStallStrTime :=
                Function.update ls.eng.mAccelMonStallStrTime s ls.kt.EndTime } }
  else ls

/-- Hardware-mode SAM external-stall branch (source lines 375-387). -/
def hwSAMstallExt (r : TraceRecord) (s : ℕ) (ls : LoopSt) : LoopSt :=
  if r.TraceID &&& XSAM_TRACE_STALL_EXT_MASK ≠ 0 then
    if ls.eng.mAccelMonStartedEvents s &&& XSAM_TRACE_STALL_EXT_MASK ≠ 0 then
      let startTime := ls.eng.mAccelMonStallExtTime s
      let kt := { ls.kt with
        Ty := "External Memory Stall", StartTime := startTime,
        Start := ls.eng.convertDeviceToHostTimestamp startTime,
        TraceStart := ls.eng.convertDeviceToHostTimestamp startTime }
      { ls with kt := kt, out := ls.out ++ [kt] }
    else { ls with eng :=
            { ls.eng with
              mAccelMonStallExtTime :=
                Function.update ls.eng.mAccelMonStallExtTime s ls.kt.EndTime } }
  else ls

/-- Hardware-mode compute-unit (SAM) branch (source lines 323-391): set the
common `kernelTrace` fields (the current device time `ts` becomes
`kt.EndTime`, which the category branches read back as the current time), run
the four category branches, then XOR the started-bitmask with the low four id
bits and record the last-activity time. -/
def hwSAM (r : TraceRecord) (ts s : ℕ) (ls : LoopSt) : LoopSt :=
  let kt0 := { ls.kt with
    SlotNum := s, Name := "OCL Region", Kind := DEVICE_KERNEL,
    EndTime := ts, BurstLength := 0, NumBytes := 0,
    End := ls.eng.convertDeviceToHostTimestamp ts }
  let ls1 := hwSAMstallExt r s (hwSAMstallStr r s (hwSAMstallInt r s (hwSAMcu r s
    { ls with kt := kt0 })))
  { ls1 with eng := { ls1.eng with
      mAccelMonStartedEvents :=
        Function.update ls1.eng.mAccelMonStartedEvents s
          (ls1.eng.mAccelMonStartedEvents s ^^^ (r.TraceID &&& 0xf)),
      mAccelMonLastTranx := Function.update ls1.eng.mAccelMonLastTranx s ts } }

/-- Hardware-mode memory read path (source lines 393-420): push on a start
event; on an end event take the start from the queue front (or the current
time when the queue is empty or the reserved flag forces a single-point
transaction) and append the transaction unconditionally. -/
def hwRead (r : TraceRecord) (ts slotID : ℕ) (ls : LoopSt) : LoopSt :=
  let s := slotID
  if r.EventType = XCL_PERF_MON_START_EVENT then
    { ls with eng := { ls.eng with
        mReadStarts := Function.update ls.eng.mReadStarts s (ls.eng.mReadStarts s ++ [ts]) } }
  else if r.EventType = XCL_PERF_MON_END_EVENT then
    let q := ls.eng.mReadStarts s
    let startTime := if r.Reserved = 1 then ts else if q.isEmpty then ts else q.headD 0
    let eng1 :=
      if r.Reserved = 1 ∨ q.isEmpty then ls.eng
      else { ls.eng with mReadStarts := Function.update ls.eng.mReadStarts s q.tail }
    let readTrace : DeviceTrace :=
      { SlotNum := slotID, Name := "", Ty := "Read", Kind := 0,
        StartTime := startTime, EndTime := ts,
        Start := eng1.convertDeviceToHostTimestamp startTime,
        End := eng1.convertDeviceToHostTimestamp ts,
        TraceStart := 0, BurstLength := burstLen startTime ts, NumBytes := 0 }
    { ls with
      eng := { eng1 with mPerfMonLastTranx := Function.update eng1.mPerfMonLastTranx slotID ts },
      out := ls.out ++ [readTrace] }
  else ls

/-- Hardware-mode memory write path (source lines 422-449), mirror of
`hwRead`. -/
def hwWrite (r : TraceRecord) (ts slotID : ℕ) (ls : LoopSt) : LoopSt :=
  let s := slotID
  if r.EventType = XCL_PERF_MON_START_EVENT then
    { ls with eng := { ls.eng with
        mWriteStarts := Function.update ls.eng.mWriteStarts s (ls.eng.mWriteStarts s ++ [ts]) } }
  else if r.EventType = XCL_PERF_MON_END_EVENT then
    let q := ls.eng.mWriteStarts s
    let startTime := if r.Reserved = 1 then ts else if q.isEmpty then ts else q.headD 0
    let eng1 :=
      if r.Reserved = 1 ∨ q.isEmpty then ls.eng
      else { ls.eng with mWriteStarts := Function.update ls.eng.mWriteStarts s q.tail }
    let writeTrace : DeviceTrace :=
      { SlotNum := slotID, Name := "", Ty := "Write", Kind := 0,
        StartTime := startTime, EndTime := ts,
        Start := eng1.convertDeviceToHostTimestamp startTime,
        End := eng1.convertDeviceToHostTimestamp ts,
        TraceStart := 0, BurstLength := burstLen startTime ts, NumBytes := 0 }
    { ls with
      eng := { eng1 with mPerfMonLastTranx := Function.update eng1.mPerfMonLastTranx slotID ts },
      out := ls.out ++ [writeTrace] }
  else ls

/-- Hardware-mode decode dispatch (source lines 321-450): ids at or above 64 go
to the compute-unit tracker, others to the read/write memory matcher. -/
def hwDecode (r : TraceRecord) (ts slotID : ℕ) (ls : LoopSt) : LoopSt :=
  if 64 ≤ r.TraceID then hwSAM r ts slotID ls
  else if IS_READ r.TraceID then hwRead r ts slotID ls
  else if IS_WRITE r.TraceID then hwWrite r ts slotID ls
  else ls

/-- One hardware-mode record (source lines 178-207 and 321-450).  Record 0 is
consumed for clock training and skipped; record 1 completes the training
(slope, offset, and — via `trainDeviceHostTimestamps` — the program-start
anchor `ps` read from the external clocks) and is then decoded like any later
record; the id-range check assigns the slot or skips unsupported ids. -/
def stepHW (ps : ℚ) (i : ℕ) (r : TraceRecord) (ls : LoopSt) : LoopSt :=
  if i = 0 then { ls with x1 := (r.Timestamp : ℚ), y1 := (r.HostTimestamp : ℚ) + 1000 }
  else
    let ls1 :=
      if i = 1 then
        let y2 : ℚ := (r.HostTimestamp : ℚ) + 1000
        let x2 : ℚ := (r.Timestamp : ℚ)
        let slope := (y2 - ls.y1) / (x2 - ls.x1)
        { ls with
            eng := { ls.eng with
              mTrainSlope := slope, mTrainOffset := y2 - slope * x2,
              mTrainProgramStart := ps },
            divZero := ls.divZero || decide (x2 - ls.x1 = 0) }
      else ls
    let ts := wrap32 (if r.Overflow = 1 then r.Timestamp + LOOP_ADD_TIME_SPM else r.Timestamp)
    if 64 ≤ r.TraceID ∧ r.TraceID ≤ 544 then
      hwDecode r ts ((r.TraceID - 64) / 16) { ls1 with fwd := ls1.fwd ++ [i] }
    else if 2 ≤ r.TraceID ∧ r.TraceID ≤ 61 then
      hwDecode r ts (r.TraceID / 2) { ls1 with fwd := ls1.fwd ++ [i] }
    else ls1

/-- The emulation-mode record loop. -/
def runEmu : ℕ → List TraceRecord → LoopSt → LoopSt
  | _, [], ls => ls
  | i, r :: rest, ls => runEmu (i + 1) rest (stepEmu i r ls)

/-- The hardware-mode record loop. -/
def runHW (ps : ℚ) : ℕ → List TraceRecord → LoopSt → LoopSt
  | _, [], ls => ls
  | i, r :: rest, ls => runHW ps (i + 1) rest (stepHW ps i r ls)

/-- The compute-unit name of a memory-monitor port name: the prefix up to the
first `/` (`substr(0, find_first_of("/"))`, the whole string when there is no
`/`). -/
def cuNameOfPort (portName : String) : String := (portName.splitOn "/").headD ""

/-- The inner loop of the incomplete-CU post-pass: the maximum
`mPerfMonLastTranx` over the memory slots whose port name shares the
compute-unit name prefix, starting from 0. -/
def lastTranxMax (eng : Engine) (cuNameSAM : String) (portNames : ℕ → String) : ℕ :=
  (List.range XSPM_MAX_NUMBER_SLOTS).foldl
    (fun acc j =>
      if cuNameSAM = cuNameOfPort (portNames j) ∧ acc < eng.mPerfMonLastTranx j
      then eng.mPerfMonLastTranx j else acc) 0

/-- One compute-unit slot of the incomplete-CU approximation post-pass (source
lines 457-486): if the Kernel bit is still started, approximate the end from
the newest related activity and, if there is any evidence, insert the
synthesized interval at the front of the output. -/
def approxSlot (cuNames portNames : ℕ → String) (ls : LoopSt) (i : ℕ) : LoopSt :=
  if ls.eng.mAccelMonStartedEvents i &&& XSAM_TRACE_CU_MASK ≠ 0 then
    let kt0 := { ls.kt with
      SlotNum := i, Name := "OCL Region", Ty := "Kernel",
      Kind := DEVICE_KERNEL,
      StartTime := ls.eng.mAccelMonCuTime i,
      Start := ls.eng.convertDeviceToHostTimestamp (ls.eng.mAccelMonCuTime i),
      BurstLength := 0, NumBytes := 0 }
    let lastT0 := lastTranxMax ls.eng (cuNames i) portNames
    let lastT := if lastT0 < ls.eng.mAccelMonLastTranx i then ls.eng.mAccelMonLastTranx i
                 else lastT0
    if lastT ≠ 0 then
      let kt := { kt0 with EndTime := lastT, End := ls.eng.convertDeviceToHostTimestamp lastT }
      { ls with kt := kt, out := kt :: ls.out }
    else { ls with kt := kt0 }
  else ls

/-- The incomplete-CU approximation post-pass (source lines 454-487), hardware
mode only, over all compute-unit slots. -/
def cuApprox (cuNames portNames : ℕ → String) (ls : LoopSt) : LoopSt :=
  (List.range XSAM_MAX_NUMBER_SLOTS).foldl (approxSlot cuNames portNames) ls

/-- The observable result of one `logTrace` call: the engine state, the
output sequence, and the two ghost fields of `LoopSt`. -/
structure LogResult where
  eng : Engine
  out : List DeviceTrace
  divZero : Bool
  fwd : List ℕ

/-- `RTProfileDevice::logTrace`.  External collaborators become parameters:
`isHwEmu` is the flow-mode flag, `ps` the program-start offset read from the
monotonic host clock and the device time oracle by
`trainDeviceHostTimestamps`, `cuNames` / `portNames` the slot-name directory.
`resultVector` is the caller's output sequence, passed by reference.  The
`numSlots` lookup of source line 120 is dead and not modelled; the min-host
scan of lines 137-144 and the FIFO-full warning only log and are not
modelled. -/
def logTrace (isHwEmu : Bool) (ps : ℚ) (cuNames portNames : ℕ → String)
    (eng0 : Engine) (traceVector : List TraceRecord) (resultVector : List DeviceTrace) :
    LogResult :=
  if eng0.mNumTraceEvents ≥ eng0.mMaxTraceEvents ∨ traceVector.length = 0 then
    { eng := eng0, out := resultVector, divZero := false, fwd := [] }
  else
    let eng1 := { eng0 with mNumTraceEvents := eng0.mNumTraceEvents + traceVector.length }
    let ls0 : LoopSt := { eng := eng1, out := resultVector, prevHost := 4294967295,
                          x1 := 0, y1 := 0, kt := dfltTrace, divZero := false, fwd := [] }
    let ls1 := if isHwEmu then runEmu 0 traceVector ls0 else runHW ps 0 traceVector ls0
    let ls2 := if isHwEmu then ls1 else cuApprox cuNames portNames ls1
    let engF := { ls2.eng with mAccelMonStartedEvents := fun s =>
        if s < XSAM_MAX_NUMBER_SLOTS then 0 else ls2.eng.mAccelMonStartedEvents s }
    { eng := engF, out := ls2.out, divZero := ls2.divZero, fwd := ls2.fwd }

/-! ### Frame lemmas: engine fields untouched by the decode branches -/

/-- The event counter and its cap: no record branch modifies them. -/
def NumFrame (ls ls' : LoopSt) : Prop :=
  ls'.eng.mNumTraceEvents = ls.eng.mNumTraceEvents ∧
  ls'.eng.mMaxTraceEvents = ls.eng.mMaxTraceEvents

/-- The clock-model fields and the ghost division flag: only the training
step at record index 1 modifies them. -/
def TrainFrame (ls ls' : LoopSt) : Prop :=
  ls'.eng.mTrainSlope = ls.eng.mTrainSlope ∧
  ls'.eng.mTrainOffset = ls.eng.mTrainOffset ∧
  ls'.eng.mTrainProgramStart = ls.eng.mTrainProgramStart ∧
  ls'.divZero = ls.divZero

lemma numFrame_trans {a b c : LoopSt} (h1 : NumFrame a b) (h2 : NumFrame b c) : NumFrame a c :=
  ⟨h2.1.trans h1.1, h2.2.trans h1.2⟩

lemma trainFrame_trans {a b c : LoopSt} (h1 : TrainFrame a b) (h2 : TrainFrame b c) :
    TrainFrame a c :=
  ⟨h2.1.trans h1.1, h2.2.1.trans h1.2.1, h2.2.2.1.trans h1.2.2.1, h2.2.2.2.trans h1.2.2.2⟩

lemma frames_emuRead (r : TraceRecord) (s ts h : ℕ) (ls : LoopSt) :
    NumFrame ls (emuRead r s ts h ls) ∧ TrainFrame ls (emuRead r s ts h ls) := by
  simp only [emuRead]
  split_ifs <;> exact ⟨⟨rfl, rfl⟩, rfl, rfl, rfl, rfl⟩

lemma frames_emuWriteEmit (ts h s : ℕ) (ls : LoopSt) :
    NumFrame ls (emuWriteEmit ts h s ls) ∧ TrainFrame ls (emuWriteEmit ts h s ls) := by
  simp only [emuWriteEmit]
  split_ifs <;> exact ⟨⟨rfl, rfl⟩, rfl, rfl, rfl, rfl⟩

lemma frames_emuMem (r : TraceRecord) (ts h : ℕ) (ls : LoopSt) :
    NumFrame ls (emuMem r ts h ls) ∧ TrainFrame ls (emuMem r ts h ls) := by
  simp only [emuMem]
  split_ifs <;>
    constructor <;>
    first
      | exact ⟨rfl, rfl⟩
      | exact ⟨rfl, rfl, rfl, rfl⟩
      | · refine numFrame_trans ?_ (frames_emuRead _ _ _ _ _).1
          first
            | exact ⟨rfl, rfl⟩
            | · refine numFrame_trans ?_ (frames_emuWriteEmit _ _ _ _).1
                exact ⟨rfl, rfl⟩
      | · refine trainFrame_trans ?_ (frames_emuRead _ _ _ _ _).2
          first
            | exact ⟨rfl, rfl, rfl, rfl⟩
            | · refine trainFrame_trans ?_ (frames_emuWriteEmit _ _ _ _).2
                exact ⟨rfl, rfl, rfl, rfl⟩

lemma frames_emuCU (r : TraceRecord) (ts h : ℕ) (ls : LoopSt) :
    NumFrame ls (emuCU r ts h ls) ∧ TrainFrame ls (emuCU r ts h ls) := by
  simp only [emuCU]
  split_ifs <;> exact ⟨⟨rfl, rfl⟩, rfl, rfl, rfl, rfl⟩

lemma frames_stepEmu (i : ℕ) (r : TraceRecord) (ls : LoopSt) :
    NumFrame ls (stepEmu i r ls) ∧ TrainFrame ls (stepEmu i r ls) := by
  simp only [stepEmu]
  split_ifs <;>
    constructor <;>
    first
      | exact ⟨rfl, rfl⟩
      | exact ⟨rfl, rfl, rfl, rfl⟩
      | · refine numFrame_trans ?_ (frames_emuMem _ _ _ _).1
          exact ⟨rfl, rfl⟩
      | · refine trainFrame_trans ?_ (frames_emuMem _ _ _ _).2
          exact ⟨rfl, rfl, rfl, rfl⟩
      | · refine numFrame_trans ?_ (frames_emuCU _ _ _ _).1
          exact ⟨rfl, rfl⟩
      | · refine trainFrame_trans ?_ (frames_emuCU _ _ _ _).2
          exact ⟨rfl, rfl, rfl, rfl⟩

lemma frames_runEmu (recs : List TraceRecord) :
    ∀ (i : ℕ) (ls : LoopSt), NumFrame ls (runEmu i recs ls) ∧ TrainFrame ls (runEmu i recs ls) := by
  induction recs with
  | nil => exact fun i ls => ⟨⟨rfl, rfl⟩, rfl, rfl, rfl, rfl⟩
  | cons r rest ih =>
      intro i ls
      refine ⟨numFrame_trans (frames_stepEmu i r ls).1 (ih (i + 1) (stepEmu i r ls)).1,
        trainFrame_trans (frames_stepEmu i r ls).2 (ih (i + 1) (stepEmu i r ls)).2⟩

lemma frames_hwSAMcu (r : TraceRecord) (s : ℕ) (ls : LoopSt) :
    NumFrame ls (hwSAMcu r s ls) ∧ TrainFrame ls (hwSAMcu r s ls) := by
  simp only [hwSAMcu]
  split_ifs <;> exact ⟨⟨rfl, rfl⟩, rfl, rfl, rfl, rfl⟩

lemma frames_hwSAMstallInt (r : TraceRecord) (s : ℕ) (ls : LoopSt) :
    NumFrame ls (hwSAMstallInt r s ls) ∧ TrainFrame ls (hwSAMstallInt r s ls) := by
  simp only [hwSAMstallInt]
  split_ifs <;> exact ⟨⟨rfl, rfl⟩, rfl, rfl, rfl, rfl⟩

lemma frames_hwSAMstallStr (r : TraceRecord) (s : ℕ) (ls : LoopSt) :
    NumFrame ls (hwSAMstallStr r s ls) ∧ TrainFrame ls (hwSAMstallStr r s ls) := by
  simp only [hwSAMstallStr]
  split_ifs <;> exact ⟨⟨rfl, rfl⟩, rfl, rfl, rfl, rfl⟩

lemma frames_hwSAMstallExt (r : TraceRecord) (s : ℕ) (ls : LoopSt) :
    NumFrame ls (hwSAMstallExt r s ls) ∧ TrainFrame ls (hwSAMstallExt r s ls) := by
  simp only [hwSAMstallExt]
  split_ifs <;> exact ⟨⟨rfl, rfl⟩, rfl, rfl, rfl, rfl⟩

lemma numFrame_hwSAMwrap {a b : LoopSt} (M L : ℕ → ℕ) (h : NumFrame a b) :
    NumFrame a
      { b with eng := { b.eng with mAccelMonStartedEvents := M, mAccelMonLastTranx := L } } :=
  ⟨h.1, h.2⟩

lemma trainFrame_hwSAMwrap {a b : LoopSt} (M L : ℕ → ℕ) (h : TrainFrame a b) :
    TrainFrame a
      { b with eng := { b.eng with mAccelMonStartedEvents := M, mAccelMonLastTranx := L } } :=
  ⟨h.1, h.2.1, h.2.2.1, h.2.2.2⟩

lemma frames_hwSAM (r : TraceRecord) (ts s : ℕ) (ls : LoopSt) :
    NumFrame ls (hwSAM r ts s ls) ∧ TrainFrame ls (hwSAM r ts s ls) := by
  simp only [hwSAM]
  constructor
  · refine numFrame_hwSAMwrap _ _ ?_
    refine numFrame_trans ?_ (frames_hwSAMstallExt _ _ _).1
    refine numFrame_trans ?_ (frames_hwSAMstallStr _ _ _).1
    refine numFrame_trans ?_ (frames_hwSAMstallInt _ _ _).1
    refine numFrame_trans ?_ (frames_hwSAMcu _ _ _).1
    exact ⟨rfl, rfl⟩
  · refine trainFrame_hwSAMwrap _ _ ?_
    refine trainFrame_trans ?_ (frames_hwSAMstallExt _ _ _).2
    refine trainFrame_trans ?_ (frames_hwSAMstallStr _ _ _).2
    refine trainFrame_trans ?_ (frames_hwSAMstallInt _ _ _).2
    refine trainFrame_trans ?_ (frames_hwSAMcu _ _ _).2
    exact ⟨rfl, rfl, rfl, rfl⟩

lemma frames_hwRead (r : TraceRecord) (ts s : ℕ) (ls : LoopSt) :
    NumFrame ls (hwRead r ts s ls) ∧ TrainFrame ls (hwRead r ts s ls) := by
  simp only [hwRead]
  split_ifs <;> exact ⟨⟨rfl, rfl⟩, rfl, rfl, rfl, rfl⟩

lemma frames_hwWrite (r : TraceRecord) (ts s : ℕ) (ls : LoopSt) :
    NumFrame ls (hwWrite r ts s ls) ∧ TrainFrame ls (hwWrite r ts s ls) := by
  simp only [hwWrite]
  split_ifs <;> exact ⟨⟨rfl, rfl⟩, rfl, rfl, rfl, rfl⟩

lemma frames_hwDecode (r : TraceRecord) (ts s : ℕ) (ls : LoopSt) :
    NumFrame ls (hwDecode r ts s ls) ∧ TrainFrame ls (hwDecode r ts s ls) := by
  simp only [hwDecode]
  split_ifs
  · exact frames_hwSAM r ts s ls
  · exact frames_hwRead r ts s ls
  · exact frames_hwWrite r ts s ls
  · exact ⟨⟨rfl, rfl⟩, rfl, rfl, rfl, rfl⟩

lemma numFrame_stepHW (ps : ℚ) (i : ℕ) (r : TraceRecord) (ls : LoopSt) :
    NumFrame ls (stepHW ps i r ls) := by
  simp only [stepHW]
  split_ifs <;>
    first
      | exact ⟨rfl, rfl⟩
      | · refine numFrame_trans ?_ (frames_hwDecode _ _ _ _).1
          exact ⟨rfl, rfl⟩

lemma trainFrame_stepHW (ps : ℚ) (i : ℕ) (r : TraceRecord) (ls : LoopSt) (hi : i ≠ 1) :
    TrainFrame ls (stepHW ps i r ls) := by
  simp only [stepHW]
  split_ifs <;>
    first
      | exact ⟨rfl, rfl, rfl, rfl⟩
      | exact absurd rfl hi
      | · refine trainFrame_trans ?_ (frames_hwDecode _ _ _ _).2
          exact ⟨rfl, rfl, rfl, rfl⟩

lemma numFrame_runHW (ps : ℚ) (recs : List TraceRecord) :
    ∀ (i : ℕ) (ls : LoopSt), NumFrame ls (runHW ps i recs ls) := by
  induction recs with
  | nil => exact fun i ls => ⟨rfl, rfl⟩
  | cons r rest ih =>
      intro i ls
      exact numFrame_trans (numFrame_stepHW ps i r ls) (ih (i + 1) (stepHW ps i r ls))

lemma trainFrame_runHW (ps : ℚ) (recs : List TraceRecord) :
    ∀ (i : ℕ) (ls : LoopSt), 2 ≤ i → TrainFrame ls (runHW ps i recs ls) := by
  induction recs with
  | nil => exact fun i ls _ => ⟨rfl, rfl, rfl, rfl⟩
  | cons r rest ih =>
      intro i ls hi
      exact trainFrame_trans (trainFrame_stepHW ps i r ls (by omega))
        (ih (i + 1) (stepHW ps i r ls) (by omega))

lemma frames_approxSlot (cn pn : ℕ → String) (ls : LoopSt) (i : ℕ) :
    NumFrame ls (approxSlot cn pn ls i) ∧ TrainFrame ls (approxSlot cn pn ls i) := by
  simp only [approxSlot]
  split_ifs <;> exact ⟨⟨rfl, rfl⟩, rfl, rfl, rfl, rfl⟩

lemma frames_cuApprox (cn pn : ℕ → String) (ls : LoopSt) :
    NumFrame ls (cuApprox cn pn ls) ∧ TrainFrame ls (cuApprox cn pn ls) := by
  unfold cuApprox
  generalize List.range XSAM_MAX_NUMBER_SLOTS = l
  induction l generalizing ls with
  | nil => exact ⟨⟨rfl, rfl⟩, rfl, rfl, rfl, rfl⟩
  | cons j rest ih =>
      simp only [List.foldl_cons]
      exact ⟨numFrame_trans (frames_approxSlot cn pn ls j).1 (ih (approxSlot cn pn ls j)).1,
        trainFrame_trans (frames_approxSlot cn pn ls j).2 (ih (approxSlot cn pn ls j)).2⟩

lemma hwDecode_divZero (r : TraceRecord) (ts s : ℕ) (ls : LoopSt) :
    (hwDecode r ts s ls).divZero = ls.divZero :=
  (frames_hwDecode r ts s ls).2.2.2.2

lemma cuApprox_divZero (cn pn : ℕ → String) (ls : LoopSt) :
    (cuApprox cn pn ls).divZero = ls.divZero :=
  (frames_cuApprox cn pn ls).2.2.2.2

lemma runHW_divZero (ps : ℚ) (recs : List TraceRecord) (i : ℕ) (ls : LoopSt) (h : 2 ≤ i) :
    (runHW ps i recs ls).divZero = ls.divZero :=
  (trainFrame_runHW ps recs i ls h).2.2.2

/-! ### Unfolding lemmas for `logTrace` -/

lemma logTrace_entry (isHwEmu : Bool) (ps : ℚ) (cn pn : ℕ → String) (eng0 : Engine)
    (tv : List TraceRecord) (rv : List DeviceTrace)
    (h : eng0.mNumTraceEvents ≥ eng0.mMaxTraceEvents ∨ tv.length = 0) :
    logTrace isHwEmu ps cn pn eng0 tv rv =
      { eng := eng0, out := rv, divZero := false, fwd := [] } := by
  unfold logTrace
  rw [if_pos h]

lemma logTrace_hw_eq (ps : ℚ) (cn pn : ℕ → String) (eng0 : Engine)
    (tv : List TraceRecord) (rv : List DeviceTrace)
    (h1 : eng0.mNumTraceEvents < eng0.mMaxTraceEvents) (h2 : tv ≠ []) :
    logTrace false ps cn pn eng0 tv rv =
      (let ls1 := runHW ps 0 tv
        { eng := { eng0 with mNumTraceEvents := eng0.mNumTraceEvents + tv.length },
          out := rv, prevHost := 4294967295, x1 := 0, y1 := 0, kt := dfltTrace,
          divZero := false, fwd := [] }
       let ls2 := cuApprox cn pn ls1
       { eng := { ls2.eng with mAccelMonStartedEvents := fun s =>
            if s < XSAM_MAX_NUMBER_SLOTS then 0 else ls2.eng.mAccelMonStartedEvents s },
         out := ls2.out, divZero := ls2.divZero, fwd := ls2.fwd }) := by
  unfold logTrace
  rw [if_neg (by push_neg; exact ⟨h1, by simpa using h2⟩)]
  simp only [Bool.false_eq_true, if_false]

lemma logTrace_emu_eq (ps : ℚ) (cn pn : ℕ → String) (eng0 : Engine)
    (tv : List TraceRecord) (rv : List DeviceTrace)
    (h1 : eng0.mNumTraceEvents < eng0.mMaxTraceEvents) (h2 : tv ≠ []) :
    logTrace true ps cn pn eng0 tv rv =
      (let ls1 := runEmu 0 tv
        { eng := { eng0 with mNumTraceEvents := eng0.mNumTraceEvents + tv.length },
          out := rv, prevHost := 4294967295, x1 := 0, y1 := 0, kt := dfltTrace,
          divZero := false, fwd := [] }
       { eng := { ls1.eng with mAccelMonStartedEvents := fun s =>
            if s < XSAM_MAX_NUMBER_SLOTS then 0 else ls1.eng.mAccelMonStartedEvents s },
         out := ls1.out, divZero := ls1.divZero, fwd := ls1.fwd }) := by
  unfold logTrace
  rw [if_neg (by push_neg; exact ⟨h1, by simpa using h2⟩)]
  simp only [if_true]

/-! ### C7: empty batch or reached cap is a no-op -/

/-- C7: every `logTrace` call whose batch is empty, or made when the processed
event counter has already reached the cap, is a no-op: it appends nothing to
the result vector and returns the engine state unchanged. -/
theorem C7_noop_on_empty_or_capped (isHwEmu : Bool) (ps : ℚ) (cn pn : ℕ → String)
    (eng0 : Engine) (tv : List TraceRecord) (rv : List DeviceTrace)
    (h : tv = [] ∨ eng0.mNumTraceEvents ≥ eng0.mMaxTraceEvents) :
    logTrace isHwEmu ps cn pn eng0 tv rv =
      { eng := eng0, out := rv, divZero := false, fwd := [] } := by
  refine logTrace_entry isHwEmu ps cn pn eng0 tv rv ?_
  rcases h with h | h
  · exact Or.inr (by simp [h])
  · exact Or.inl h

/-- Shared concrete collaborators for the witnesses: an empty slot directory. -/
def noNames : ℕ → String := fun _ => ""

/-- Witness for C7 at a concrete input: an empty batch on a fresh engine. -/
theorem C7_noop_witness :
    logTrace true 0 noNames noNames initEngine [] [] =
      { eng := initEngine, out := [], divZero := false, fwd := [] } :=
  C7_noop_on_empty_or_capped true 0 noNames noNames initEngine [] [] (Or.inl rfl)

/-! ### C6: the processed-event counter versus the cap -/

lemma logTrace_mNum_pass (isHwEmu : Bool) (ps : ℚ) (cn pn : ℕ → String) (eng0 : Engine)
    (tv : List TraceRecord) (rv : List DeviceTrace)
    (h1 : eng0.mNumTraceEvents < eng0.mMaxTraceEvents) (h2 : tv ≠ []) :
    (logTrace isHwEmu ps cn pn eng0 tv rv).eng.mNumTraceEvents =
      eng0.mNumTraceEvents + tv.length := by
  cases isHwEmu
  · rw [logTrace_hw_eq ps cn pn eng0 tv rv h1 h2]
    simp only []
    rw [(frames_cuApprox cn pn _).1.1, (numFrame_runHW ps tv 0 _).1]
  · rw [logTrace_emu_eq ps cn pn eng0 tv rv h1 h2]
    simp only []
    rw [(frames_runEmu tv 0 _).1.1]

/-- C6 (corrected): the counter is modified only by calls entered strictly
below the cap, and such a call adds exactly the batch length after the single
entry check, so after any call the counter is bounded by
`max` of its old value and `cap - 1 + batch length`; it can therefore
exceed the cap by up to `batch length - 1`, but a call entered at or above
the cap never increases it. -/
theorem C6_counter_overshoot_bound (isHwEmu : Bool) (ps : ℚ) (cn pn : ℕ → String)
    (eng0 : Engine) (tv : List TraceRecord) (rv : List DeviceTrace) :
    ((eng0.mNumTraceEvents ≥ eng0.mMaxTraceEvents ∨ tv = []) →
      (logTrace isHwEmu ps cn pn eng0 tv rv).eng.mNumTraceEvents = eng0.mNumTraceEvents) ∧
    (eng0.mNumTraceEvents < eng0.mMaxTraceEvents → tv ≠ [] →
      (logTrace isHwEmu ps cn pn eng0 tv rv).eng.mNumTraceEvents =
        eng0.mNumTraceEvents + tv.length) ∧
    (logTrace isHwEmu ps cn pn eng0 tv rv).eng.mNumTraceEvents ≤
      max eng0.mNumTraceEvents (eng0.mMaxTraceEvents - 1 + tv.length) := by
  refine ⟨?_, ?_, ?_⟩
  · intro h
    have : logTrace isHwEmu ps cn pn eng0 tv rv =
        { eng := eng0, out := rv, divZero := false, fwd := [] } := by
      refine logTrace_entry _ _ _ _ _ _ _ ?_
      rcases h with h | h
      · exact Or.inl h
      · exact Or.inr (by simp [h])
    rw [this]
  · exact fun h1 h2 => logTrace_mNum_pass isHwEmu ps cn pn eng0 tv rv h1 h2
  · by_cases h1 : eng0.mNumTraceEvents < eng0.mMaxTraceEvents
    · by_cases h2 : tv = []
      · rw [logTrace_entry _ _ _ _ _ _ _ (Or.inr (by simp [h2]))]
        exact le_max_left _ _
      · rw [logTrace_mNum_pass isHwEmu ps cn pn eng0 tv rv h1 h2]
        have : tv.length ≥ 1 := by
          cases tv
          · exact absurd rfl h2
          · simp
        refine le_max_of_le_right ?_
        omega
    · rw [logTrace_entry _ _ _ _ _ _ _ (Or.inl (by omega))]
      exact le_max_left _ _

/-- A pair of plain emulation-mode records used by concrete instances. -/
def cRecA : TraceRecord :=
  { Timestamp := 5, HostTimestamp := 10, TraceID := 0, EventFlags := 0,
    EventType := 0, Reserved := 0, Overflow := 0 }

/-- A second plain record, see `cRecA`. -/
def cRecB : TraceRecord :=
  { Timestamp := 5, HostTimestamp := 20, TraceID := 0, EventFlags := 0,
    EventType := 0, Reserved := 0, Overflow := 0 }

/-- Counterexample for C6 as stated: from a counter of 3 with cap 4, a batch
of two records drives the counter to 5, strictly above the cap — the
processed-event counter does exceed `mMaxTraceEvents`. -/
theorem C6_counterexample :
    (logTrace true 0 noNames noNames
        { initEngine with mNumTraceEvents := 3, mMaxTraceEvents := 4 }
        [cRecA, cRecB] []).eng.mNumTraceEvents = 5 ∧
    (logTrace true 0 noNames noNames
        { initEngine with mNumTraceEvents := 3, mMaxTraceEvents := 4 }
        [cRecA, cRecB] []).eng.mMaxTraceEvents = 4 := by
  constructor
  · rw [logTrace_mNum_pass true 0 noNames noNames _ _ _ (by norm_num) (by simp)]
    rfl
  · rw [logTrace_emu_eq 0 noNames noNames _ _ _ (by norm_num) (by simp)]
    simp only []
    rw [(frames_runEmu _ 0 _).1.2]

/-- Witness for C6's theorem at a concrete input: the counter goes from 3 to
5 with cap 4 and batch length 2, within the proved bound `max 3 (4 - 1 + 2)`. -/
theorem C6_witness :
    (logTrace true 0 noNames noNames
        { initEngine with mNumTraceEvents := 3, mMaxTraceEvents := 4 }
        [cRecA, cRecB] []).eng.mNumTraceEvents = 3 + 2 :=
  (C6_counter_overshoot_bound true 0 noNames noNames
    { initEngine with mNumTraceEvents := 3, mMaxTraceEvents := 4 }
    [cRecA, cRecB] []).2.1 (by norm_num) (by simp)

/-! ### C8: the calibration division is not guarded -/

lemma stepHW_zero (ps : ℚ) (r : TraceRecord) (ls : LoopSt) :
    stepHW ps 0 r ls =
      { ls with x1 := (r.Timestamp : ℚ), y1 := (r.HostTimestamp : ℚ) + 1000 } := by
  unfold stepHW
  rw [if_pos rfl]

lemma stepHW_one_divZero (ps : ℚ) (r : TraceRecord) (ls : LoopSt) :
    (stepHW ps 1 r ls).divZero =
      (ls.divZero || decide ((r.Timestamp : ℚ) - ls.x1 = 0)) := by
  unfold stepHW
  rw [if_neg (by omega : (1 : ℕ) ≠ 0), if_pos rfl]
  split_ifs <;> simp only [hwDecode_divZero]

/-- C8 (corrected): there is no guard — in hardware mode any batch with at
least two records whose first two device timestamps are equal makes
`logTrace` execute the clock-training division `(y2-y1)/(x2-x1)` with a zero
denominator (the ghost flag `divZero` marks exactly the execution of source
line 190 with `x2 - x1 = 0`). -/
theorem C8_division_not_guarded (ps : ℚ) (cn pn : ℕ → String) (eng0 : Engine)
    (r1 r2 : TraceRecord) (rest : List TraceRecord) (rv : List DeviceTrace)
    (hcap : eng0.mNumTraceEvents < eng0.mMaxTraceEvents)
    (heq : r1.Timestamp = r2.Timestamp) :
    (logTrace false ps cn pn eng0 (r1 :: r2 :: rest) rv).divZero = true := by
  rw [logTrace_hw_eq ps cn pn eng0 (r1 :: r2 :: rest) rv hcap (by simp)]
  simp only [cuApprox_divZero]
  show (runHW ps 2 rest (stepHW ps 1 r2 (stepHW ps 0 r1 _))).divZero = true
  rw [runHW_divZero ps rest 2 _ (by omega)]
  rw [stepHW_one_divZero, stepHW_zero]
  simp [heq]

/-- The hardware record that exhibits the degenerate calibration pair. -/
def cRecT100 : TraceRecord :=
  { Timestamp := 100, HostTimestamp := 0, TraceID := 0, EventFlags := 0,
    EventType := 0, Reserved := 0, Overflow := 0 }

/-- Second record of the degenerate calibration pair: the same device
timestamp 100 with a different host timestamp. -/
def cRecT100b : TraceRecord :=
  { Timestamp := 100, HostTimestamp := 7, TraceID := 0, EventFlags := 0,
    EventType := 0, Reserved := 0, Overflow := 0 }

/-- Counterexample for C8 as stated: on the concrete hardware batch whose
first two records both carry device timestamp 100, `logTrace` does perform
the division with denominator `x2 - x1 = 0` (the ghost flag fires), refuting
the claim that the computation explicitly guards this case. -/
theorem C8_counterexample :
    (logTrace false 0 noNames noNames initEngine [cRecT100, cRecT100b] []).divZero = true := by
  rw [logTrace_hw_eq 0 noNames noNames initEngine [cRecT100, cRecT100b] [] (by decide) (by simp)]
  simp only [cuApprox_divZero]
  show (runHW 0 2 [] (stepHW 0 1 cRecT100b (stepHW 0 0 cRecT100 _))).divZero = true
  rw [runHW_divZero 0 [] 2 _ (by omega)]
  rw [stepHW_one_divZero, stepHW_zero]
  simp [cRecT100, cRecT100b]

/-- Witness for C8's theorem at a concrete input. -/
theorem C8_witness :
    (logTrace false 0 noNames noNames initEngine
      [cRecT100, { cRecT100 with HostTimestamp := 9 }, cRecA] []).divZero = true :=
  C8_division_not_guarded 0 noNames noNames initEngine cRecT100
    { cRecT100 with HostTimestamp := 9 } [cRecA] [] (by decide) rfl

/-! ### C10: the incomplete-CU post-pass is idempotent -/

lemma approxSlot_noop (cn pn : ℕ → String) (ls : LoopSt) (i : ℕ)
    (h : ls.eng.mAccelMonStartedEvents i &&& XSAM_TRACE_CU_MASK = 0) :
    approxSlot cn pn ls i = ls := by
  unfold approxSlot
  rw [if_neg (by simp [h])]

lemma cuApprox_noop (cn pn : ℕ → String) (ls : LoopSt)
    (h : ∀ j, j < XSAM_MAX_NUMBER_SLOTS → ls.eng.mAccelMonStartedEvents j = 0) :
    cuApprox cn pn ls = ls := by
  unfold cuApprox
  have key : ∀ l : List ℕ, (∀ j ∈ l, ls.eng.mAccelMonStartedEvents j &&& XSAM_TRACE_CU_MASK = 0) →
      List.foldl (approxSlot cn pn) ls l = ls := by
    intro l
    induction l with
    | nil => intro _; rfl
    | cons a t ih =>
        intro hl
        rw [List.foldl_cons, approxSlot_noop cn pn ls a (hl a (List.mem_cons_self a t))]
        exact ih fun j hj => hl j (List.mem_cons_of_mem a hj)
  refine key _ fun j hj => ?_
  rw [h j (List.mem_range.mp hj)]
  rfl

/-- C10: the incomplete-CU approximation post-pass is idempotent. First, at
the end of every `logTrace` call that passes the entry check, the
started-events bitmask of every compute-unit slot is cleared to zero (in both
modes, by the unconditional clear at source line 489).  Second, the post-pass
run on any state whose bitmasks are all zero does nothing, so a second run on
the resulting state emits no further synthesized record. -/
theorem C10_postpass_idempotent :
    (∀ (isHwEmu : Bool) (ps : ℚ) (cn pn : ℕ → String) (eng0 : Engine)
        (tv : List TraceRecord) (rv : List DeviceTrace),
      eng0.mNumTraceEvents < eng0.mMaxTraceEvents → tv ≠ [] →
      ∀ s, s < XSAM_MAX_NUMBER_SLOTS →
        (logTrace isHwEmu ps cn pn eng0 tv rv).eng.mAccelMonStartedEvents s = 0) ∧
    (∀ (cn pn : ℕ → String) (ls : LoopSt),
      (∀ j, j < XSAM_MAX_NUMBER_SLOTS → ls.eng.mAccelMonStartedEvents j = 0) →
      cuApprox cn pn ls = ls) := by
  constructor
  · intro isHwEmu ps cn pn eng0 tv rv h1 h2 s hs
    cases isHwEmu
    · rw [logTrace_hw_eq ps cn pn eng0 tv rv h1 h2]
      simp only []
      rw [if_pos hs]
    · rw [logTrace_emu_eq ps cn pn eng0 tv rv h1 h2]
      simp only []
      rw [if_pos hs]
  · exact cuApprox_noop

/-- A concrete loop state with all bitmasks zero, for the C10 witness. -/
def cLoopZero : LoopSt :=
  { eng := initEngine, out := [], prevHost := 0, x1 := 0, y1 := 0, kt := dfltTrace,
    divZero := false, fwd := [] }

/-- Witness for C10 at concrete inputs: a one-record call clears slot 0's
bitmask, and the post-pass on an all-zero state emits nothing. -/
theorem C10_witness :
    (logTrace true 0 noNames noNames initEngine [cRecA] []).eng.mAccelMonStartedEvents 0 = 0 ∧
    cuApprox noNames noNames cLoopZero = cLoopZero :=
  ⟨C10_postpass_idempotent.1 true 0 noNames noNames initEngine [cRecA] []
      (by norm_num [initEngine]) (by simp) 0 (by norm_num [XSAM_MAX_NUMBER_SLOTS]),
    C10_postpass_idempotent.2 noNames noNames cLoopZero (fun j _ => rfl)⟩

/-! ### C2: clock training and device-to-host conversion -/

lemma hwDecode_mTrainSlope (r : TraceRecord) (ts s : ℕ) (ls : LoopSt) :
    (hwDecode r ts s ls).eng.mTrainSlope = ls.eng.mTrainSlope :=
  (frames_hwDecode r ts s ls).2.1

lemma hwDecode_mTrainOffset (r : TraceRecord) (ts s : ℕ) (ls : LoopSt) :
    (hwDecode r ts s ls).eng.mTrainOffset = ls.eng.mTrainOffset :=
  (frames_hwDecode r ts s ls).2.2.1

lemma hwDecode_mTrainProgramStart (r : TraceRecord) (ts s : ℕ) (ls : LoopSt) :
    (hwDecode r ts s ls).eng.mTrainProgramStart = ls.eng.mTrainProgramStart :=
  (frames_hwDecode r ts s ls).2.2.2.1

lemma stepHW_one_train (ps : ℚ) (r : TraceRecord) (ls : LoopSt) :
    (stepHW ps 1 r ls).eng.mTrainSlope =
      ((r.HostTimestamp : ℚ) + 1000 - ls.y1) / ((r.Timestamp : ℚ) - ls.x1) ∧
    (stepHW ps 1 r ls).eng.mTrainOffset =
      (r.HostTimestamp : ℚ) + 1000 -
        (((r.HostTimestamp : ℚ) + 1000 - ls.y1) / ((r.Timestamp : ℚ) - ls.x1)) *
          (r.Timestamp : ℚ) ∧
    (stepHW ps 1 r ls).eng.mTrainProgramStart = ps := by
  unfold stepHW
  rw [if_neg (by omega : (1 : ℕ) ≠ 0), if_pos rfl]
  split_ifs <;>
    exact ⟨by simp only [hwDecode_mTrainSlope], by simp only [hwDecode_mTrainOffset],
      by simp only [hwDecode_mTrainProgramStart]⟩

lemma logTrace_hw_train (ps : ℚ) (cn pn : ℕ → String) (eng0 : Engine)
    (r1 r2 : TraceRecord) (rest : List TraceRecord) (rv : List DeviceTrace)
    (hcap : eng0.mNumTraceEvents < eng0.mMaxTraceEvents) :
    (logTrace false ps cn pn eng0 (r1 :: r2 :: rest) rv).eng.mTrainSlope =
      ((r2.HostTimestamp : ℚ) + 1000 - ((r1.HostTimestamp : ℚ) + 1000)) /
        ((r2.Timestamp : ℚ) - (r1.Timestamp : ℚ)) ∧
    (logTrace false ps cn pn eng0 (r1 :: r2 :: rest) rv).eng.mTrainOffset =
      (r2.HostTimestamp : ℚ) + 1000 -
        (((r2.HostTimestamp : ℚ) + 1000 - ((r1.HostTimestamp : ℚ) + 1000)) /
          ((r2.Timestamp : ℚ) - (r1.Timestamp : ℚ))) * (r2.Timestamp : ℚ) ∧
    (logTrace false ps cn pn eng0 (r1 :: r2 :: rest) rv).eng.mTrainProgramStart = ps := by
  rw [logTrace_hw_eq ps cn pn eng0 (r1 :: r2 :: rest) rv hcap (by simp)]
  simp only []
  rw [(frames_cuApprox cn pn _).2.1, (frames_cuApprox cn pn _).2.2.1,
    (frames_cuApprox cn pn _).2.2.2.1]
  show (runHW ps 2 rest (stepHW ps 1 r2 (stepHW ps 0 r1 _))).eng.mTrainSlope = _ ∧
    (runHW ps 2 rest (stepHW ps 1 r2 (stepHW ps 0 r1 _))).eng.mTrainOffset = _ ∧
    (runHW ps 2 rest (stepHW ps 1 r2 (stepHW ps 0 r1 _))).eng.mTrainProgramStart = _
  rw [(trainFrame_runHW ps rest 2 _ (by omega)).1,
    (trainFrame_runHW ps rest 2 _ (by omega)).2.1,
    (trainFrame_runHW ps rest 2 _ (by omega)).2.2.1]
  rw [stepHW_zero]
  exact stepHW_one_train ps r2 _

/-- The first record of the concrete calibration scenario: device cycle 100,
raw host timestamp 0 (adjusted host 1000). -/
def calRec1 : TraceRecord :=
  { Timestamp := 100, HostTimestamp := 0, TraceID := 0, EventFlags := 0,
    EventType := 0, Reserved := 0, Overflow := 0 }

/-- The second record of the concrete calibration scenario: device cycle 200,
raw host timestamp 100 (adjusted host 1100). -/
def calRec2 : TraceRecord :=
  { Timestamp := 200, HostTimestamp := 100, TraceID := 0, EventFlags := 0,
    EventType := 0, Reserved := 0, Overflow := 0 }

/-- C2: in hardware mode, for every batch with at least two records (and an
engine below its cap), the trained clock model is
`slope = (y2-y1)/(x2-x1)` and `offset = y2 - slope*x2` computed from the
first two records' `(device timestamp, host timestamp + 1000)` pairs, and
every device timestamp `t` converts as
`slope*t/1e6 + (offset - programStartOffset)/1e6`; in particular the
calibration pair device `(100, 200)` with adjusted hosts `(1000, 1100)`
trains `slope = 1`, `offset = 900`, and
`convert 300 = 300/1e6 + (900 - programStartOffset)/1e6`. -/
theorem C2_clock_training :
    (∀ (ps : ℚ) (cn pn : ℕ → String) (eng0 : Engine) (r1 r2 : TraceRecord)
        (rest : List TraceRecord) (rv : List DeviceTrace),
      eng0.mNumTraceEvents < eng0.mMaxTraceEvents →
      (r1.Timestamp : ℚ) ≠ (r2.Timestamp : ℚ) →
      (logTrace false ps cn pn eng0 (r1 :: r2 :: rest) rv).eng.mTrainSlope =
        (((r2.HostTimestamp : ℚ) + 1000) - ((r1.HostTimestamp : ℚ) + 1000)) /
          ((r2.Timestamp : ℚ) - (r1.Timestamp : ℚ)) ∧
      (logTrace false ps cn pn eng0 (r1 :: r2 :: rest) rv).eng.mTrainOffset =
        ((r2.HostTimestamp : ℚ) + 1000) -
          (logTrace false ps cn pn eng0 (r1 :: r2 :: rest) rv).eng.mTrainSlope *
            (r2.Timestamp : ℚ) ∧
      ∀ t : ℕ,
        (logTrace false ps cn pn eng0 (r1 :: r2 :: rest) rv).eng.convertDeviceToHostTimestamp
            t =
          (logTrace false ps cn pn eng0 (r1 :: r2 :: rest) rv).eng.mTrainSlope * (t : ℚ) /
              1000000 +
            ((logTrace false ps cn pn eng0 (r1 :: r2 :: rest) rv).eng.mTrainOffset - ps) /
              1000000) ∧
    (∀ ps : ℚ,
      (logTrace false ps noNames noNames initEngine [calRec1, calRec2] []).eng.mTrainSlope =
          1 ∧
      (logTrace false ps noNames noNames initEngine [calRec1, calRec2] []).eng.mTrainOffset =
          900 ∧
      (logTrace false ps noNames noNames initEngine
            [calRec1, calRec2] []).eng.convertDeviceToHostTimestamp 300 =
        300 / 1000000 + (900 - ps) / 1000000) := by
  constructor
  · intro ps cn pn eng0 r1 r2 rest rv hcap _
    obtain ⟨h1, h2, h3⟩ := logTrace_hw_train ps cn pn eng0 r1 r2 rest rv hcap
    refine ⟨h1, ?_, ?_⟩
    · rw [h2, h1]
    · intro t
      unfold Engine.convertDeviceToHostTimestamp
      rw [h3]
  · intro ps
    obtain ⟨h1, h2, h3⟩ :=
      logTrace_hw_train ps noNames noNames initEngine calRec1 calRec2 [] [] (by decide)
    have hs : (logTrace false ps noNames noNames initEngine
        [calRec1, calRec2] []).eng.mTrainSlope = 1 := by
      rw [h1]
      norm_num [calRec1, calRec2]
    have ho : (logTrace false ps noNames noNames initEngine
        [calRec1, calRec2] []).eng.mTrainOffset = 900 := by
      rw [h2]
      norm_num [calRec1, calRec2]
    refine ⟨hs, ho, ?_⟩
    unfold Engine.convertDeviceToHostTimestamp
    rw [hs, ho, h3]
    norm_num

/-- Witness for C2 at a concrete input: the calibration scenario with
`programStartOffset = 0` and a third record checking the general equations. -/
theorem C2_witness :
    (logTrace false 0 noNames noNames initEngine [calRec1, calRec2, cRecA] []).eng.mTrainSlope =
        ((100 : ℚ) + 1000 - ((0 : ℚ) + 1000)) / ((200 : ℚ) - (100 : ℚ)) ∧
    (logTrace false 0 noNames noNames initEngine [calRec1, calRec2] []).eng.mTrainOffset =
        900 := by
  constructor
  · have := (C2_clock_training.1 0 noNames noNames initEngine calRec1 calRec2 [cRecA] []
      (by decide) (by norm_num [calRec1, calRec2])).1
    rw [this]
    norm_num [calRec1, calRec2]
  · exact ((C2_clock_training.2 0).2).1

/-! ### Per-record equation lemmas -/

/-- The clock-training update performed at record index 1 in hardware mode
(source lines 187-193), as one state transformer. -/
def trainUpd (ps : ℚ) (r : TraceRecord) (ls : LoopSt) : LoopSt :=
  { ls with
    eng := { ls.eng with
      mTrainSlope := ((r.HostTimestamp : ℚ) + 1000 - ls.y1) / ((r.Timestamp : ℚ) - ls.x1),
      mTrainOffset :=
        (r.HostTimestamp : ℚ) + 1000 -
          (((r.HostTimestamp : ℚ) + 1000 - ls.y1) / ((r.Timestamp : ℚ) - ls.x1)) *
            (r.Timestamp : ℚ),
      mTrainProgramStart := ps },
    divZero := ls.divZero || decide ((r.Timestamp : ℚ) - ls.x1 = 0) }

/-- The Read transaction built by the hardware memory path (source lines
409-416) from a start time and the current time. -/
def hwReadEv (eng : Engine) (slot a e : ℕ) : DeviceTrace :=
  { SlotNum := slot, Name := "", Ty := "Read", Kind := 0, StartTime := a, EndTime := e,
    Start := eng.convertDeviceToHostTimestamp a, End := eng.convertDeviceToHostTimestamp e,
    TraceStart := 0, BurstLength := burstLen a e, NumBytes := 0 }

/-- The Write transaction built by the hardware memory path (source lines
438-445). -/
def hwWriteEv (eng : Engine) (slot a e : ℕ) : DeviceTrace :=
  { SlotNum := slot, Name := "", Ty := "Write", Kind := 0, StartTime := a, EndTime := e,
    Start := eng.convertDeviceToHostTimestamp a, End := eng.convertDeviceToHostTimestamp e,
    TraceStart := 0, BurstLength := burstLen a e, NumBytes := 0 }

/-- The Read transaction built by the emulation memory path (source lines
272-287) from device start `a`, host start `ah`, device end `e` and host end
`h` (with `Start < End`, so no zero-length padding is applied). -/
def emuReadEv (s a ah e h : ℕ) : DeviceTrace :=
  { SlotNum := s, Name := "", Ty := "Read", Kind := 0, StartTime := a, EndTime := e,
    Start := (ah : ℚ) / 1000000, End := (h : ℚ) / 1000000,
    TraceStart := (ah : ℚ) / 1000000, BurstLength := burstLen a e, NumBytes := 0 }

lemma stepHW_ge2_unsupported (ps : ℚ) (i : ℕ) (r : TraceRecord) (ls : LoopSt)
    (hi : 2 ≤ i)
    (h1 : ¬(64 ≤ r.TraceID ∧ r.TraceID ≤ 544)) (h2 : ¬(2 ≤ r.TraceID ∧ r.TraceID ≤ 61)) :
    stepHW ps i r ls = ls := by
  unfold stepHW
  simp only []
  rw [if_neg (by omega : ¬ i = 0), if_neg (by omega : ¬ i = 1), if_neg h1, if_neg h2]

lemma stepHW_one_unsupported (ps : ℚ) (r : TraceRecord) (ls : LoopSt)
    (h1 : ¬(64 ≤ r.TraceID ∧ r.TraceID ≤ 544)) (h2 : ¬(2 ≤ r.TraceID ∧ r.TraceID ≤ 61)) :
    stepHW ps 1 r ls = trainUpd ps r ls := by
  unfold stepHW trainUpd
  rw [if_neg (by omega : ¬ (1 : ℕ) = 0), if_pos rfl]
  simp only []
  rw [if_neg h1, if_neg h2]

lemma stepHW_read_start (ps : ℚ) (i : ℕ) (r : TraceRecord) (ls : LoopSt)
    (hi : 2 ≤ i) (hlo : 2 ≤ r.TraceID) (hhi : r.TraceID ≤ 61) (hpar : r.TraceID % 2 = 0)
    (het : r.EventType = XCL_PERF_MON_START_EVENT)
    (hovf : r.Overflow ≠ 1) (hts : r.Timestamp < 2 ^ 32) :
    stepHW ps i r ls =
      { ls with
        eng := { ls.eng with
          mReadStarts := Function.update ls.eng.mReadStarts (r.TraceID / 2)
            (ls.eng.mReadStarts (r.TraceID / 2) ++ [r.Timestamp]) },
        fwd := ls.fwd ++ [i] } := by
  unfold stepHW hwDecode hwRead
  simp only []
  rw [if_neg (by omega : ¬ i = 0), if_neg (by omega : ¬ i = 1),
    if_neg (by omega : ¬(64 ≤ r.TraceID ∧ r.TraceID ≤ 544)),
    if_pos ⟨hlo, hhi⟩, if_neg hovf,
    if_neg (by omega : ¬ 64 ≤ r.TraceID),
    if_pos (by simp [IS_READ, hpar]), if_pos het]
  have : wrap32 r.Timestamp = r.Timestamp := Nat.mod_eq_of_lt hts
  rw [this]

lemma stepHW_read_end_pop (ps : ℚ) (i : ℕ) (r : TraceRecord) (ls : LoopSt)
    (a : ℕ) (q : List ℕ)
    (hi : 2 ≤ i) (hlo : 2 ≤ r.TraceID) (hhi : r.TraceID ≤ 61) (hpar : r.TraceID % 2 = 0)
    (het : r.EventType = XCL_PERF_MON_END_EVENT)
    (hrsv : r.Reserved ≠ 1)
    (hovf : r.Overflow ≠ 1) (hts : r.Timestamp < 2 ^ 32)
    (hq : ls.eng.mReadStarts (r.TraceID / 2) = a :: q) :
    stepHW ps i r ls =
      { ls with
        eng := { ls.eng with
          mReadStarts := Function.update ls.eng.mReadStarts (r.TraceID / 2) q,
          mPerfMonLastTranx :=
            Function.update ls.eng.mPerfMonLastTranx (r.TraceID / 2) r.Timestamp },
        out := ls.out ++ [hwReadEv ls.eng (r.TraceID / 2) a r.Timestamp],
        fwd := ls.fwd ++ [i] } := by
  unfold stepHW hwDecode hwRead hwReadEv
  simp only []
  rw [if_neg (by omega : ¬ i = 0), if_neg (by omega : ¬ i = 1),
    if_neg (by omega : ¬(64 ≤ r.TraceID ∧ r.TraceID ≤ 544)),
    if_pos ⟨hlo, hhi⟩, if_neg hovf,
    if_neg (by omega : ¬ 64 ≤ r.TraceID),
    if_pos (by simp [IS_READ, hpar]),
    if_neg (by rw [het]; exact (by decide :
      ¬ XCL_PERF_MON_END_EVENT = XCL_PERF_MON_START_EVENT)),
    if_pos het]
  have hw : wrap32 r.Timestamp = r.Timestamp := Nat.mod_eq_of_lt hts
  rw [hw, hq]
  rw [if_neg (by rintro (h | h); exact hrsv h; simp at h)]
  rw [if_neg hrsv, if_neg (by simp : ¬ (a :: q).isEmpty = true)]
  simp only [List.headD_cons, List.tail_cons]
  rfl

lemma stepHW_read_end_empty (ps : ℚ) (i : ℕ) (r : TraceRecord) (ls : LoopSt)
    (hi : 2 ≤ i) (hlo : 2 ≤ r.TraceID) (hhi : r.TraceID ≤ 61) (hpar : r.TraceID % 2 = 0)
    (het : r.EventType = XCL_PERF_MON_END_EVENT)
    (hrsv : r.Reserved ≠ 1)
    (hovf : r.Overflow ≠ 1) (hts : r.Timestamp < 2 ^ 32)
    (hq : ls.eng.mReadStarts (r.TraceID / 2) = []) :
    stepHW ps i r ls =
      { ls with
        eng := { ls.eng with
          mPerfMonLastTranx :=
            Function.update ls.eng.mPerfMonLastTranx (r.TraceID / 2) r.Timestamp },
        out := ls.out ++ [hwReadEv ls.eng (r.TraceID / 2) r.Timestamp r.Timestamp],
        fwd := ls.fwd ++ [i] } := by
  unfold stepHW hwDecode hwRead hwReadEv
  simp only []
  rw [if_neg (by omega : ¬ i = 0), if_neg (by omega : ¬ i = 1),
    if_neg (by omega : ¬(64 ≤ r.TraceID ∧ r.TraceID ≤ 544)),
    if_pos ⟨hlo, hhi⟩, if_neg hovf,
    if_neg (by omega : ¬ 64 ≤ r.TraceID),
    if_pos (by simp [IS_READ, hpar]),
    if_neg (by rw [het]; exact (by decide :
      ¬ XCL_PERF_MON_END_EVENT = XCL_PERF_MON_START_EVENT)),
    if_pos het]
  have hw : wrap32 r.Timestamp = r.Timestamp := Nat.mod_eq_of_lt hts
  rw [hw, hq]
  rw [if_pos (Or.inr (by simp)), if_neg hrsv, if_pos (by simp)]

lemma stepHW_write_end_empty (ps : ℚ) (i : ℕ) (r : TraceRecord) (ls : LoopSt)
    (hi : 2 ≤ i) (hlo : 2 ≤ r.TraceID) (hhi : r.TraceID ≤ 61) (hpar : r.TraceID % 2 = 1)
    (het : r.EventType = XCL_PERF_MON_END_EVENT)
    (hrsv : r.Reserved ≠ 1)
    (hovf : r.Overflow ≠ 1) (hts : r.Timestamp < 2 ^ 32)
    (hq : ls.eng.mWriteStarts (r.TraceID / 2) = []) :
    stepHW ps i r ls =
      { ls with
        eng := { ls.eng with
          mPerfMonLastTranx :=
            Function.update ls.eng.mPerfMonLastTranx (r.TraceID / 2) r.Timestamp },
        out := ls.out ++ [hwWriteEv ls.eng (r.TraceID / 2) r.Timestamp r.Timestamp],
        fwd := ls.fwd ++ [i] } := by
  unfold stepHW hwDecode hwWrite hwWriteEv
  simp only []
  rw [if_neg (by omega : ¬ i = 0), if_neg (by omega : ¬ i = 1),
    if_neg (by omega : ¬(64 ≤ r.TraceID ∧ r.TraceID ≤ 544)),
    if_pos ⟨hlo, hhi⟩, if_neg hovf,
    if_neg (by omega : ¬ 64 ≤ r.TraceID),
    if_neg (by simp [IS_READ, hpar]), if_pos (by simp [IS_WRITE, hpar]),
    if_neg (by rw [het]; exact (by decide :
      ¬ XCL_PERF_MON_END_EVENT = XCL_PERF_MON_START_EVENT)),
    if_pos het]
  have hw : wrap32 r.Timestamp = r.Timestamp := Nat.mod_eq_of_lt hts
  rw [hw, hq]
  rw [if_pos (Or.inr (by simp)), if_neg hrsv, if_pos (by simp)]

lemma stepEmu_skip (i : ℕ) (r : TraceRecord) (ls : LoopSt)
    (hovf : r.Overflow ≠ 1)
    (hdup : r.HostTimestamp = ls.prevHost ∧ r.Timestamp = 1) :
    stepEmu i r ls =
      { ls with eng :=
          { ls.eng with mPrevTimestamp := wrap32 (r.Timestamp + ls.eng.mPrevTimestamp) } } := by
  unfold stepEmu
  simp only []
  rw [if_neg hovf, if_pos hdup]

lemma stepEmu_unsupported (i : ℕ) (r : TraceRecord) (ls : LoopSt)
    (hovf : r.Overflow ≠ 1)
    (hdup : ¬(r.HostTimestamp = ls.prevHost ∧ r.Timestamp = 1))
    (h1 : ¬ r.TraceID < 61) (h2 : ¬(64 ≤ r.TraceID ∧ r.TraceID ≤ 94)) :
    stepEmu i r ls =
      { ls with
        eng := { ls.eng with mPrevTimestamp := wrap32 (r.Timestamp + ls.eng.mPrevTimestamp) },
        prevHost := wrap32 r.HostTimestamp } := by
  unfold stepEmu
  simp only []
  rw [if_neg hovf, if_neg hdup, if_neg h1, if_neg h2]

lemma stepEmu_read_start (i : ℕ) (r : TraceRecord) (ls : LoopSt)
    (hovf : r.Overflow ≠ 1)
    (hdup : ¬(r.HostTimestamp = ls.prevHost ∧ r.Timestamp = 1))
    (hid : r.TraceID < 61) (hfl : r.EventFlags = 4) :
    stepEmu i r ls =
      { ls with
        eng := { ls.eng with
          mPrevTimestamp := wrap32 (r.Timestamp + ls.eng.mPrevTimestamp),
          mReadStarts := Function.update ls.eng.mReadStarts (r.TraceID / 2)
            (ls.eng.mReadStarts (r.TraceID / 2) ++
              [wrap32 (r.Timestamp + ls.eng.mPrevTimestamp)]),
          mHostReadStarts := Function.update ls.eng.mHostReadStarts (r.TraceID / 2)
            (ls.eng.mHostReadStarts (r.TraceID / 2) ++ [r.HostTimestamp]) },
        prevHost := wrap32 r.HostTimestamp,
        fwd := ls.fwd ++ [i] } := by
  unfold stepEmu emuMem emuRead getTimestampNsec
  simp only []
  rw [if_neg hovf, if_neg hdup, if_pos hid, hfl]
  rw [if_neg (by decide : ¬ getBit 4 XAPM_WRITE_FIRST = 1),
    if_neg (by decide : ¬ getBit 4 XAPM_WRITE_LAST = 1),
    if_pos (by decide : getBit 4 XAPM_READ_FIRST = 1),
    if_neg (by decide : ¬ getBit 4 XAPM_READ_LAST = 1)]

lemma stepEmu_read_end_empty (i : ℕ) (r : TraceRecord) (ls : LoopSt)
    (hovf : r.Overflow ≠ 1)
    (hdup : ¬(r.HostTimestamp = ls.prevHost ∧ r.Timestamp = 1))
    (hid : r.TraceID < 61) (hfl : r.EventFlags = 8)
    (hq : ls.eng.mReadStarts (r.TraceID / 2) = []) :
    stepEmu i r ls =
      { ls with
        eng := { ls.eng with
          mPrevTimestamp := wrap32 (r.Timestamp + ls.eng.mPrevTimestamp) },
        prevHost := wrap32 r.HostTimestamp,
        fwd := ls.fwd ++ [i] } := by
  unfold stepEmu emuMem emuRead getTimestampNsec
  simp only []
  rw [if_neg hovf, if_neg hdup, if_pos hid, hfl]
  rw [if_neg (by decide : ¬ getBit 8 XAPM_WRITE_FIRST = 1),
    if_neg (by decide : ¬ getBit 8 XAPM_WRITE_LAST = 1),
    if_neg (by decide : ¬ getBit 8 XAPM_READ_FIRST = 1),
    if_pos (by decide : getBit 8 XAPM_READ_LAST = 1)]
  rw [hq]
  rw [if_pos (by simp : List.isEmpty ([] : List ℕ) = true)]

lemma stepEmu_write_end_empty (i : ℕ) (r : TraceRecord) (ls : LoopSt)
    (hovf : r.Overflow ≠ 1)
    (hdup : ¬(r.HostTimestamp = ls.prevHost ∧ r.Timestamp = 1))
    (hid : r.TraceID < 61) (hfl : r.EventFlags = 2)
    (hq : ls.eng.mWriteStarts (r.TraceID / 2) = []) :
    stepEmu i r ls =
      { ls with
        eng := { ls.eng with
          mPrevTimestamp := wrap32 (r.Timestamp + ls.eng.mPrevTimestamp) },
        prevHost := wrap32 r.HostTimestamp,
        fwd := ls.fwd ++ [i] } := by
  unfold stepEmu emuMem getTimestampNsec
  simp only []
  rw [if_neg hovf, if_neg hdup, if_pos hid, hfl]
  rw [if_neg (by decide : ¬ getBit 2 XAPM_WRITE_FIRST = 1),
    if_pos (by decide : getBit 2 XAPM_WRITE_LAST = 1)]
  rw [hq]
  rw [if_pos (by simp : List.isEmpty ([] : List ℕ) = true)]

lemma stepEmu_read_end_pop (i : ℕ) (r : TraceRecord) (ls : LoopSt)
    (a ah : ℕ) (q qh : List ℕ)
    (hovf : r.Overflow ≠ 1)
    (hdup : ¬(r.HostTimestamp = ls.prevHost ∧ r.Timestamp = 1))
    (hid : r.TraceID < 61) (hfl : r.EventFlags = 8)
    (hq : ls.eng.mReadStarts (r.TraceID / 2) = a :: q)
    (hqh : ls.eng.mHostReadStarts (r.TraceID / 2) = ah :: qh)
    (hlt : ah < r.HostTimestamp) :
    stepEmu i r ls =
      { ls with
        eng := { ls.eng with
          mPrevTimestamp := wrap32 (r.Timestamp + ls.eng.mPrevTimestamp),
          mReadStarts := Function.update ls.eng.mReadStarts (r.TraceID / 2) q,
          mHostReadStarts := Function.update ls.eng.mHostReadStarts (r.TraceID / 2) qh },
        prevHost := wrap32 r.HostTimestamp,
        out := ls.out ++
          [emuReadEv (r.TraceID / 2) a ah (wrap32 (r.Timestamp + ls.eng.mPrevTimestamp))
            r.HostTimestamp],
        fwd := ls.fwd ++ [i] } := by
  have hl : (ah : ℚ) / 1000000 < (r.HostTimestamp : ℚ) / 1000000 := by
    gcongr
  unfold stepEmu emuMem emuRead getTimestampNsec emuReadEv
  simp only []
  rw [if_neg hovf, if_neg hdup, if_pos hid, hfl]
  rw [if_neg (by decide : ¬ getBit 8 XAPM_WRITE_FIRST = 1),
    if_neg (by decide : ¬ getBit 8 XAPM_WRITE_LAST = 1),
    if_neg (by decide : ¬ getBit 8 XAPM_READ_FIRST = 1),
    if_pos (by decide : getBit 8 XAPM_READ_LAST = 1)]
  rw [hq, hqh]
  rw [if_neg (by simp : ¬ List.isEmpty (a :: q) = true)]
  simp only [List.headD_cons, List.tail_cons]
  rw [if_neg (ne_of_lt hl), if_pos (le_of_lt hl)]

/-! ### C3: unmatched end events -/

lemma burstLen_self (t : ℕ) : burstLen t t = 1 := by
  unfold burstLen sub64
  omega

/-- C3: for an end event arriving on a memory slot whose matching start queue
is empty, the emulation-mode record loop emits no TraceEvent for that record
(the record is dropped and the loop continues), while the hardware-mode
record loop emits one degenerate single-point transaction with
`StartTime = EndTime =` the current device timestamp and `BurstLength = 1`
(reads and writes alike). -/
theorem C3_unmatched_end (i : ℕ) (r : TraceRecord) (ls : LoopSt) (ps : ℚ) :
    (r.Overflow ≠ 1 → ¬(r.HostTimestamp = ls.prevHost ∧ r.Timestamp = 1) →
      r.TraceID < 61 →
      ((r.EventFlags = 8 ∧ ls.eng.mReadStarts (r.TraceID / 2) = []) ∨
        (r.EventFlags = 2 ∧ ls.eng.mWriteStarts (r.TraceID / 2) = [])) →
      (stepEmu i r ls).out = ls.out) ∧
    (2 ≤ i → 2 ≤ r.TraceID → r.TraceID ≤ 61 →
      r.EventType = XCL_PERF_MON_END_EVENT → r.Reserved ≠ 1 → r.Overflow ≠ 1 →
      r.Timestamp < 2 ^ 32 →
      (r.TraceID % 2 = 0 → ls.eng.mReadStarts (r.TraceID / 2) = [] →
        (stepHW ps i r ls).out = ls.out ++
          [{ SlotNum := r.TraceID / 2, Name := "", Ty := "Read", Kind := 0,
             StartTime := r.Timestamp, EndTime := r.Timestamp,
             Start := ls.eng.convertDeviceToHostTimestamp r.Timestamp,
             End := ls.eng.convertDeviceToHostTimestamp r.Timestamp,
             TraceStart := 0, BurstLength := 1, NumBytes := 0 }]) ∧
      (r.TraceID % 2 = 1 → ls.eng.mWriteStarts (r.TraceID / 2) = [] →
        (stepHW ps i r ls).out = ls.out ++
          [{ SlotNum := r.TraceID / 2, Name := "", Ty := "Write", Kind := 0,
             StartTime := r.Timestamp, EndTime := r.Timestamp,
             Start := ls.eng.convertDeviceToHostTimestamp r.Timestamp,
             End := ls.eng.convertDeviceToHostTimestamp r.Timestamp,
             TraceStart := 0, BurstLength := 1, NumBytes := 0 }])) := by
  constructor
  · rintro hovf hdup hid (⟨hfl, hq⟩ | ⟨hfl, hq⟩)
    · rw [stepEmu_read_end_empty i r ls hovf hdup hid hfl hq]
    · rw [stepEmu_write_end_empty i r ls hovf hdup hid hfl hq]
  · intro hi hlo hhi het hrsv hovf hts
    constructor
    · intro hpar hq
      rw [stepHW_read_end_empty ps i r ls hi hlo hhi hpar het hrsv hovf hts hq]
      simp [hwReadEv, burstLen_self]
    · intro hpar hq
      rw [stepHW_write_end_empty ps i r ls hi hlo hhi hpar het hrsv hovf hts hq]
      simp [hwWriteEv, burstLen_self]

/-- Scenario B's concrete record: a hardware read-end at device time 20 on
the memory slot addressed by trace id 2. -/
def endRec20 : TraceRecord :=
  { Timestamp := 20, HostTimestamp := 0, TraceID := 2, EventFlags := 0,
    EventType := XCL_PERF_MON_END_EVENT, Reserved := 0, Overflow := 0 }

/-- An emulation read-end record (flags = read-last only) used by the C3
witness. -/
def emuEndRecW : TraceRecord :=
  { Timestamp := 3, HostTimestamp := 50, TraceID := 2, EventFlags := 8,
    EventType := 0, Reserved := 0, Overflow := 0 }

/-- Witness for C3 at concrete inputs: Scenario B (hardware read-end at
device time 20 with an empty start queue yields the degenerate transaction
`{start = 20, end = 20, burst = 1}`), and the emulation-mode drop. -/
theorem C3_unmatched_end_witness :
    (stepHW 0 2 endRec20 cLoopZero).out =
      [{ SlotNum := 1, Name := "", Ty := "Read", Kind := 0,
         StartTime := 20, EndTime := 20,
         Start := initEngine.convertDeviceToHostTimestamp 20,
         End := initEngine.convertDeviceToHostTimestamp 20,
         TraceStart := 0, BurstLength := 1, NumBytes := 0 }] ∧
    (stepEmu 0 emuEndRecW cLoopZero).out = [] := by
  constructor
  · have := ((C3_unmatched_end 2 endRec20 cLoopZero 0).2 (by omega) (by decide) (by decide)
      rfl (by decide) (by decide) (by decide)).1 (by decide) rfl
    simpa [cLoopZero, endRec20, initEngine] using this
  · exact (C3_unmatched_end 0 emuEndRecW cLoopZero 0).1 (by decide) (by decide) (by decide)
      (Or.inl ⟨rfl, rfl⟩)

lemma stepEmu_cu_start (i : ℕ) (r : TraceRecord) (ls : LoopSt)
    (hovf : r.Overflow ≠ 1)
    (hdup : ¬(r.HostTimestamp = ls.prevHost ∧ r.Timestamp = 1))
    (h64 : 64 ≤ r.TraceID) (h94 : r.TraceID ≤ 94)
    (hcu : r.EventFlags &&& XSAM_TRACE_CU_MASK ≠ 0)
    (hmask : ¬ ls.eng.mAccelMonStartedEvents (r.TraceID - 64) &&& XSAM_TRACE_CU_MASK ≠ 0) :
    stepEmu i r ls =
      { ls with
        eng := { ls.eng with
          mPrevTimestamp := wrap32 (r.Timestamp + ls.eng.mPrevTimestamp),
          mAccelMonCuHostTime :=
            Function.update ls.eng.mAccelMonCuHostTime (r.TraceID - 64) r.HostTimestamp,
          mAccelMonCuTime := Function.update ls.eng.mAccelMonCuTime (r.TraceID - 64)
            (wrap32 (r.Timestamp + ls.eng.mPrevTimestamp)),
          mAccelMonStartedEvents :=
            Function.update ls.eng.mAccelMonStartedEvents (r.TraceID - 64)
              (ls.eng.mAccelMonStartedEvents (r.TraceID - 64) ^^^ XSAM_TRACE_CU_MASK) },
        prevHost := wrap32 r.HostTimestamp,
        kt := { ls.kt with
          SlotNum := r.TraceID - 64, Name := "OCL Region", Kind := DEVICE_KERNEL,
          EndTime := wrap32 (r.Timestamp + ls.eng.mPrevTimestamp),
          End := (r.HostTimestamp : ℚ) / 1000000, BurstLength := 0, NumBytes := 0 },
        fwd := ls.fwd ++ [i] } := by
  unfold stepEmu emuCU getTimestampNsec
  simp only []
  rw [if_neg hovf, if_neg hdup, if_neg (by omega : ¬ r.TraceID < 61), if_pos ⟨h64, h94⟩,
    if_pos hcu, if_neg hmask]

lemma stepEmu_cu_end (i : ℕ) (r : TraceRecord) (ls : LoopSt)
    (hovf : r.Overflow ≠ 1)
    (hdup : ¬(r.HostTimestamp = ls.prevHost ∧ r.Timestamp = 1))
    (h64 : 64 ≤ r.TraceID) (h94 : r.TraceID ≤ 94)
    (hcu : r.EventFlags &&& XSAM_TRACE_CU_MASK ≠ 0)
    (hmask : ls.eng.mAccelMonStartedEvents (r.TraceID - 64) &&& XSAM_TRACE_CU_MASK ≠ 0) :
    stepEmu i r ls =
      (let T := wrap32 (r.Timestamp + ls.eng.mPrevTimestamp)
       let ktEnd : DeviceTrace :=
        { ls.kt with
          SlotNum := r.TraceID - 64, Name := "OCL Region", Kind := DEVICE_KERNEL,
          EndTime := T, End := (r.HostTimestamp : ℚ) / 1000000,
          BurstLength := 0, NumBytes := 0, Ty := "Kernel",
          StartTime := ls.eng.mAccelMonCuTime (r.TraceID - 64),
          Start := (ls.eng.mAccelMonCuHostTime (r.TraceID - 64) : ℚ) / 1000000 }
       { ls with
        eng := { ls.eng with
          mPrevTimestamp := T,
          mEmuTraceMsecOneCycle :=
            (ktEnd.End - ktEnd.Start) /
              (((2 * sub64 ktEnd.EndTime ktEnd.StartTime) % 2 ^ 64 : ℕ) : ℚ),
          mAccelMonStartedEvents :=
            Function.update ls.eng.mAccelMonStartedEvents (r.TraceID - 64)
              (ls.eng.mAccelMonStartedEvents (r.TraceID - 64) ^^^ XSAM_TRACE_CU_MASK) },
        prevHost := wrap32 r.HostTimestamp,
        kt := ktEnd,
        out := ls.out ++ [ktEnd],
        fwd := ls.fwd ++ [i] }) := by
  unfold stepEmu emuCU getTimestampNsec
  simp only []
  rw [if_neg hovf, if_neg hdup, if_neg (by omega : ¬ r.TraceID < 61), if_pos ⟨h64, h94⟩,
    if_pos hcu, if_pos hmask]

/-! ### C4: front/back insertion ordering -/

/-- The output sequence is a block of Kernel-typed records followed by a
block of non-Kernel records. -/
def KFirst (l : List DeviceTrace) : Prop :=
  ∃ k o, l = k ++ o ∧ (∀ e ∈ k, e.Ty = "Kernel") ∧ (∀ e ∈ o, e.Ty ≠ "Kernel")

/-- Every Kernel-typed record appears at a strictly smaller index than every
non-Kernel (stall or memory) record. -/
def kernelsBeforeOthers (l : List DeviceTrace) : Prop :=
  ∀ i j, i < l.length → j < l.length →
    (l.getD i dfltTrace).Ty = "Kernel" → (l.getD j dfltTrace).Ty ≠ "Kernel" → i < j

lemma KFirst_nil : KFirst [] :=
  ⟨[], [], rfl, by simp, by simp⟩

lemma KFirst_append {l : List DeviceTrace} {e : DeviceTrace}
    (h : KFirst l) (he : e.Ty ≠ "Kernel") : KFirst (l ++ [e]) := by
  obtain ⟨k, o, rfl, hk, ho⟩ := h
  refine ⟨k, o ++ [e], by rw [List.append_assoc], hk, ?_⟩
  intro x hx
  rcases List.mem_append.mp hx with hx | hx
  · exact ho x hx
  · rw [List.mem_singleton.mp hx]
    exact he

lemma KFirst_cons {l : List DeviceTrace} {e : DeviceTrace}
    (h : KFirst l) (he : e.Ty = "Kernel") : KFirst (e :: l) := by
  obtain ⟨k, o, rfl, hk, ho⟩ := h
  refine ⟨e :: k, o, rfl, ?_, ho⟩
  intro x hx
  rcases List.mem_cons.mp hx with hx | hx
  · rw [hx]; exact he
  · exact hk x hx

lemma KFirst_hwSAMcu (r : TraceRecord) (s : ℕ) (ls : LoopSt)
    (h : KFirst ls.out) : KFirst (hwSAMcu r s ls).out := by
  unfold hwSAMcu
  simp only []
  split_ifs <;> (try dsimp only) <;> first
    | exact KFirst_cons h rfl
    | exact h

lemma KFirst_hwSAMstallInt (r : TraceRecord) (s : ℕ) (ls : LoopSt)
    (h : KFirst ls.out) : KFirst (hwSAMstallInt r s ls).out := by
  unfold hwSAMstallInt
  simp only []
  split_ifs <;> (try dsimp only) <;> first
    | exact KFirst_append h (by decide : ("Intra-Kernel Dataflow Stall" : String) ≠ "Kernel")
    | exact h

lemma KFirst_hwSAMstallStr (r : TraceRecord) (s : ℕ) (ls : LoopSt)
    (h : KFirst ls.out) : KFirst (hwSAMstallStr r s ls).out := by
  unfold hwSAMstallStr
  simp only []
  split_ifs <;> (try dsimp only) <;> first
    | exact KFirst_append h (by decide : ("Inter-Kernel Pipe Stall" : String) ≠ "Kernel")
    | exact h

lemma KFirst_hwSAMstallExt (r : TraceRecord) (s : ℕ) (ls : LoopSt)
    (h : KFirst ls.out) : KFirst (hwSAMstallExt r s ls).out := by
  unfold hwSAMstallExt
  simp only []
  split_ifs <;> (try dsimp only) <;> first
    | exact KFirst_append h (by decide : ("External Memory Stall" : String) ≠ "Kernel")
    | exact h

lemma KFirst_hwSAM (r : TraceRecord) (ts s : ℕ) (ls : LoopSt)
    (h : KFirst ls.out) : KFirst (hwSAM r ts s ls).out := by
  unfold hwSAM
  simp only []
  exact KFirst_hwSAMstallExt _ _ _ (KFirst_hwSAMstallStr _ _ _
    (KFirst_hwSAMstallInt _ _ _ (KFirst_hwSAMcu _ _ _ h)))

lemma KFirst_hwRead (r : TraceRecord) (ts s : ℕ) (ls : LoopSt)
    (h : KFirst ls.out) : KFirst (hwRead r ts s ls).out := by
  unfold hwRead
  simp only []
  split_ifs <;> (try dsimp only) <;> first
    | exact KFirst_append h (by decide : ("Read" : String) ≠ "Kernel")
    | exact h

lemma KFirst_hwWrite (r : TraceRecord) (ts s : ℕ) (ls : LoopSt)
    (h : KFirst ls.out) : KFirst (hwWrite r ts s ls).out := by
  unfold hwWrite
  simp only []
  split_ifs <;> (try dsimp only) <;> first
    | exact KFirst_append h (by decide : ("Write" : String) ≠ "Kernel")
    | exact h

lemma KFirst_stepHW (ps : ℚ) (i : ℕ) (r : TraceRecord) (ls : LoopSt)
    (h : KFirst ls.out) : KFirst (stepHW ps i r ls).out := by
  unfold stepHW hwDecode
  simp only []
  split_ifs <;> first
    | exact h
    | exact KFirst_hwSAM _ _ _ _ h
    | exact KFirst_hwRead _ _ _ _ h
    | exact KFirst_hwWrite _ _ _ _ h

lemma KFirst_runHW (ps : ℚ) (recs : List TraceRecord) :
    ∀ (i : ℕ) (ls : LoopSt), KFirst ls.out → KFirst (runHW ps i recs ls).out := by
  induction recs with
  | nil => exact fun i ls h => h
  | cons r rest ih => exact fun i ls h => ih (i + 1) _ (KFirst_stepHW ps i r ls h)

lemma KFirst_approxSlot (cn pn : ℕ → String) (ls : LoopSt) (j : ℕ)
    (h : KFirst ls.out) : KFirst (approxSlot cn pn ls j).out := by
  unfold approxSlot
  simp only []
  split_ifs <;> (try dsimp only) <;> first
    | exact KFirst_cons h rfl
    | exact h

lemma KFirst_cuApprox (cn pn : ℕ → String) (ls : LoopSt)
    (h : KFirst ls.out) : KFirst (cuApprox cn pn ls).out := by
  unfold cuApprox
  generalize List.range XSAM_MAX_NUMBER_SLOTS = l
  induction l generalizing ls with
  | nil => exact h
  | cons j rest ih =>
      rw [List.foldl_cons]
      exact ih _ (KFirst_approxSlot cn pn ls j h)

lemma KFirst.toKernelsBeforeOthers {l : List DeviceTrace} (h : KFirst l) :
    kernelsBeforeOthers l := by
  obtain ⟨k, o, rfl, hk, ho⟩ := h
  intro i j hi hj hKi hKj
  rw [List.getD_eq_getElem?_getD, List.getElem?_append] at hKi hKj
  have hik : i < k.length := by
    by_contra hik
    push_neg at hik
    rw [if_neg (by omega)] at hKi
    have hio : i - k.length < o.length := by
      rw [List.length_append] at hi
      omega
    rw [List.getElem?_eq_getElem hio, Option.getD_some] at hKi
    exact ho _ (List.getElem_mem hio) hKi
  have hjk : k.length ≤ j := by
    by_contra hjk
    push_neg at hjk
    rw [if_pos hjk, List.getElem?_eq_getElem hjk, Option.getD_some] at hKj
    exact hKj (hk _ (List.getElem_mem hjk))
  omega

/-- C4 (corrected, hardware half): in hardware (non-emulation) mode every
completed Kernel-category interval is inserted at the front of the output
sequence and every stall and memory record is appended at the back, so in the
final output of any hardware-mode `logTrace` call starting from an empty
result vector, every Kernel record appears at a strictly smaller index than
every stall or memory record. -/
theorem C4_hw_kernels_first (ps : ℚ) (cn pn : ℕ → String) (eng0 : Engine)
    (tv : List TraceRecord) :
    kernelsBeforeOthers (logTrace false ps cn pn eng0 tv []).out := by
  by_cases hpass : eng0.mNumTraceEvents ≥ eng0.mMaxTraceEvents ∨ tv.length = 0
  · rw [logTrace_entry false ps cn pn eng0 tv [] hpass]
    exact KFirst.toKernelsBeforeOthers KFirst_nil
  · push_neg at hpass
    rw [logTrace_hw_eq ps cn pn eng0 tv [] hpass.1 (by
      intro hnil
      exact absurd (by simp [hnil]) (by omega : ¬ tv.length = 0))]
    simp only []
    exact KFirst.toKernelsBeforeOthers
      (KFirst_cuApprox cn pn _ (KFirst_runHW ps tv 0 _ KFirst_nil))

/-- C4 counterexample batch, record 1: an emulation compute-unit start on
slot 0 (trace id 64, CU flag set) at host time 10. -/
def c4k1 : TraceRecord := ⟨5, 10, 64, 1, 0, 0, 0⟩

/-- C4 counterexample batch, record 2: a read start on memory slot 0 at host
time 20. -/
def c4m1 : TraceRecord := ⟨5, 20, 0, 4, 0, 0, 0⟩

/-- C4 counterexample batch, record 3: the matching read end at host time
30; it emits a Read transaction at the back of the output. -/
def c4m2 : TraceRecord := ⟨5, 30, 0, 8, 0, 0, 0⟩

/-- C4 counterexample batch, record 4: the compute-unit end at host time 40;
in emulation mode it is appended at the back, after the Read. -/
def c4k2 : TraceRecord := ⟨5, 40, 64, 1, 0, 0, 0⟩

/-- The loop state entering the record loop for the C4 counterexample
batch. -/
def c4s0 : LoopSt :=
  { eng := { initEngine with
      mNumTraceEvents := initEngine.mNumTraceEvents + [c4k1, c4m1, c4m2, c4k2].length },
    out := [], prevHost := 4294967295, x1 := 0, y1 := 0, kt := dfltTrace,
    divZero := false, fwd := [] }

/-- State after the first C4 record. -/
def c4s1 : LoopSt := stepEmu 0 c4k1 c4s0

/-- State after the second C4 record. -/
def c4s2 : LoopSt := stepEmu 1 c4m1 c4s1

/-- State after the third C4 record. -/
def c4s3 : LoopSt := stepEmu 2 c4m2 c4s2

/-- State after the fourth C4 record. -/
def c4s4 : LoopSt := stepEmu 3 c4k2 c4s3

lemma not_kbo_of_map {l : List DeviceTrace}
    (h : l.map (fun e => e.Ty) = ["Read", "Kernel"]) : ¬ kernelsBeforeOthers l := by
  intro hko
  cases l with
  | nil => simp at h
  | cons a t =>
    cases t with
    | nil => simp at h
    | cons b t2 =>
      cases t2 with
      | cons c t3 => simp at h
      | nil =>
        simp only [List.map_cons, List.map_nil, List.cons.injEq, and_true] at h
        obtain ⟨ha, hb⟩ := h
        have h10 := hko 1 0 (by simp) (by simp)
          (by simpa [List.getD_cons_succ, List.getD_cons_zero] using hb)
          (by simp only [List.getD_cons_zero, ha]; decide)
        omega

/-- Counterexample for C4 as stated: in emulation mode a completed Kernel
interval is appended at the *back* of the output (source line 308 uses
`push_back`, not front insertion), so on the concrete batch
CU-start, read-start, read-end, CU-end the output is `[Read, Kernel]` — the
completed Kernel interval appears *after* a memory record of the same batch,
refuting the claim for the emulation decode mode. -/
theorem C4_counterexample :
    ((logTrace true 0 noNames noNames initEngine [c4k1, c4m1, c4m2, c4k2] []).out.map
      (fun e => e.Ty) = ["Read", "Kernel"]) ∧
    ¬ kernelsBeforeOthers
      (logTrace true 0 noNames noNames initEngine [c4k1, c4m1, c4m2, c4k2] []).out := by
  have e3 : c4s3 = _ := stepEmu_read_end_pop 2 c4m2 c4s2 10 20 [] []
    (by decide) (by decide) (by decide) (by decide) (by decide) (by decide) (by decide)
  have e4 : c4s4 = _ := stepEmu_cu_end 3 c4k2 c4s3
    (by decide) (by rw [e3]; decide) (by decide) (by decide) (by decide) (by rw [e3]; decide)
  have hout : (logTrace true 0 noNames noNames initEngine
      [c4k1, c4m1, c4m2, c4k2] []).out.map (fun e => e.Ty) = ["Read", "Kernel"] := by
    rw [logTrace_emu_eq 0 noNames noNames initEngine [c4k1, c4m1, c4m2, c4k2] []
      (by decide) (by simp)]
    simp only []
    show c4s4.out.map (fun e => e.Ty) = ["Read", "Kernel"]
    rw [e4]
    simp only []
    rw [e3]
    simp only []
    rw [show c4s2.out = [] from rfl]
    simp [emuReadEv]
  exact ⟨hout, not_kbo_of_map hout⟩

/-- Witness-style instance of the C4 ordering theorem at a concrete
hardware input. -/
theorem C4_hw_kernels_first_witness :
    kernelsBeforeOthers
      (logTrace false 0 noNames noNames initEngine [cRecT100, cRecT100b] []).out :=
  C4_hw_kernels_first 0 noNames noNames initEngine [cRecT100, cRecT100b]

/-! ### C5: the `end >= start` guard -/

/-- Every Read or Write record in the list satisfies `Start ≤ End`. -/
def memGuard (l : List DeviceTrace) : Prop :=
  ∀ e ∈ l, (e.Ty = "Read" ∨ e.Ty = "Write") → e.Start ≤ e.End

lemma memGuard_nil : memGuard [] := by
  intro e he
  simp at he

lemma memGuard_append {l : List DeviceTrace} {e : DeviceTrace}
    (h : memGuard l) (he : (e.Ty = "Read" ∨ e.Ty = "Write") → e.Start ≤ e.End) :
    memGuard (l ++ [e]) := by
  intro x hx hty
  rcases List.mem_append.mp hx with hx | hx
  · exact h x hx hty
  · rw [List.mem_singleton.mp hx]
    exact he (by rwa [List.mem_singleton.mp hx] at hty)

lemma memGuard_emuRead (r : TraceRecord) (s ts hn : ℕ) (ls : LoopSt)
    (h : memGuard ls.out) : memGuard (emuRead r s ts hn ls).out := by
  unfold emuRead
  simp only []
  split_ifs with h1 h2 h3 h4 h5 h6 h7 h8 <;> (try dsimp only) <;>
    first
      | exact h
      | · refine memGuard_append h fun _ => ?_
          assumption

lemma memGuard_emuWriteEmit (ts hn s : ℕ) (ls : LoopSt)
    (h : memGuard ls.out) : memGuard (emuWriteEmit ts hn s ls).out := by
  unfold emuWriteEmit
  simp only []
  split_ifs <;> (try dsimp only) <;>
    first
      | exact h
      | · refine memGuard_append h fun _ => ?_
          assumption

lemma memGuard_emuMem (r : TraceRecord) (ts hn : ℕ) (ls : LoopSt)
    (h : memGuard ls.out) : memGuard (emuMem r ts hn ls).out := by
  unfold emuMem
  simp only []
  split_ifs <;>
    first
      | exact h
      | exact memGuard_emuRead _ _ _ _ _ h
      | exact memGuard_emuRead _ _ _ _ _ (memGuard_emuWriteEmit _ _ _ _ h)

lemma memGuard_emuCU (r : TraceRecord) (ts hn : ℕ) (ls : LoopSt)
    (h : memGuard ls.out) : memGuard (emuCU r ts hn ls).out := by
  unfold emuCU
  simp only []
  split_ifs <;> (try dsimp only) <;>
    first
      | exact h
      | exact memGuard_append h fun hty =>
          absurd hty (by decide : ¬(("Kernel" : String) = "Read" ∨ ("Kernel" : String) = "Write"))

lemma memGuard_stepEmu (i : ℕ) (r : TraceRecord) (ls : LoopSt)
    (h : memGuard ls.out) : memGuard (stepEmu i r ls).out := by
  unfold stepEmu
  simp only []
  split_ifs <;>
    first
      | exact h
      | exact memGuard_emuMem _ _ _ _ h
      | exact memGuard_emuCU _ _ _ _ h

lemma memGuard_runEmu (recs : List TraceRecord) :
    ∀ (i : ℕ) (ls : LoopSt), memGuard ls.out → memGuard (runEmu i recs ls).out := by
  induction recs with
  | nil => exact fun i ls h => h
  | cons r rest ih => exact fun i ls h => ih (i + 1) _ (memGuard_stepEmu i r ls h)

/-- C5 (corrected, emulation half): in emulation mode every memory (Read or
Write) TraceEvent that `logTrace` places into an initially empty result
vector satisfies `Start ≤ End` after conversion — a candidate memory
transaction with `End < Start` is silently discarded (source lines 247 and
285). Hardware-mode events carry no such guard; see the counterexample. -/
theorem C5_emu_memory_guard (ps : ℚ) (cn pn : ℕ → String) (eng0 : Engine)
    (tv : List TraceRecord) (e : DeviceTrace)
    (he : e ∈ (logTrace true ps cn pn eng0 tv []).out)
    (hty : e.Ty = "Read" ∨ e.Ty = "Write") :
    e.Start ≤ e.End := by
  by_cases hpass : eng0.mNumTraceEvents ≥ eng0.mMaxTraceEvents ∨ tv.length = 0
  · rw [logTrace_entry true ps cn pn eng0 tv [] hpass] at he
    simp at he
  · push_neg at hpass
    rw [logTrace_emu_eq ps cn pn eng0 tv [] hpass.1 (by
      intro hnil
      exact absurd (by simp [hnil]) (by omega : ¬ tv.length = 0))] at he
    simp only [] at he
    exact memGuard_runEmu tv 0 _ memGuard_nil e he hty

/-- C5 counterexample, calibration record 1: device 0, host 0. -/
def c5t0 : TraceRecord := ⟨0, 0, 0, 0, 0, 0, 0⟩

/-- C5 counterexample, calibration record 2: device 100, host 100 — trains
slope 1 and offset 1000. -/
def c5t1 : TraceRecord := ⟨100, 100, 0, 0, 0, 0, 0⟩

/-- C5 counterexample, read start at device time 300. -/
def c5s : TraceRecord := ⟨300, 0, 2, 0, XCL_PERF_MON_START_EVENT, 0, 0⟩

/-- C5 counterexample, read end at device time 200, *before* the start. -/
def c5e : TraceRecord := ⟨200, 0, 2, 0, XCL_PERF_MON_END_EVENT, 0, 0⟩

/-- Loop state entering the record loop for the C5 counterexample. -/
def c5st0 : LoopSt :=
  { eng := { initEngine with
      mNumTraceEvents := initEngine.mNumTraceEvents + [c5t0, c5t1, c5s, c5e].length },
    out := [], prevHost := 4294967295, x1 := 0, y1 := 0, kt := dfltTrace,
    divZero := false, fwd := [] }

/-- State after C5 record 1. -/
def c5st1 : LoopSt := stepHW 0 0 c5t0 c5st0

/-- State after C5 record 2. -/
def c5st2 : LoopSt := stepHW 0 1 c5t1 c5st1

/-- State after C5 record 3. -/
def c5st3 : LoopSt := stepHW 0 2 c5s c5st2

/-- State after C5 record 4. -/
def c5st4 : LoopSt := stepHW 0 3 c5e c5st3

/-- Counterexample for C5 as stated: the hardware memory path has no
`End >= Start` check (source lines 409-417 append unconditionally), so after
training slope 1 / offset 1000, a read start at device time 300 followed by a
read end at device time 200 emits one Read TraceEvent whose converted `End`
is strictly below its `Start`. -/
theorem C5_counterexample :
    (logTrace false 0 noNames noNames initEngine [c5t0, c5t1, c5s, c5e] []).out.length = 1 ∧
    ((logTrace false 0 noNames noNames initEngine
        [c5t0, c5t1, c5s, c5e] []).out.getD 0 dfltTrace).End <
      ((logTrace false 0 noNames noNames initEngine
        [c5t0, c5t1, c5s, c5e] []).out.getD 0 dfltTrace).Start := by
  have e1 : c5st1 = _ := stepHW_zero 0 c5t0 c5st0
  have e2 : c5st2 = trainUpd 0 c5t1 c5st1 :=
    stepHW_one_unsupported 0 c5t1 c5st1 (by decide) (by decide)
  have e3 : c5st3 = _ := stepHW_read_start 0 2 c5s c5st2 (by omega) (by decide) (by decide)
    (by decide) rfl (by decide) (by decide)
  have e4 : c5st4 = _ := stepHW_read_end_pop 0 3 c5e c5st3 300 [] (by omega) (by decide)
    (by decide) (by decide) rfl (by decide) (by decide) (by decide) (by decide)
  have hmask : ∀ j, j < XSAM_MAX_NUMBER_SLOTS →
      c5st4.eng.mAccelMonStartedEvents j = 0 := fun j _ => rfl
  have hout : (logTrace false 0 noNames noNames initEngine
      [c5t0, c5t1, c5s, c5e] []).out = [hwReadEv c5st3.eng 1 300 200] := by
    rw [logTrace_hw_eq 0 noNames noNames initEngine [c5t0, c5t1, c5s, c5e] []
      (by decide) (by simp)]
    simp only []
    rw [show runHW 0 0 [c5t0, c5t1, c5s, c5e]
        { eng := { initEngine with
            mNumTraceEvents :=
              initEngine.mNumTraceEvents + [c5t0, c5t1, c5s, c5e].length },
          out := [], prevHost := 4294967295, x1 := 0, y1 := 0, kt := dfltTrace,
          divZero := false, fwd := [] } = c5st4 from rfl]
    rw [cuApprox_noop noNames noNames c5st4 hmask]
    rw [e4]
    simp only []
    rw [show c5st3.out = [] from rfl]
    rw [show (c5e.TraceID / 2 : ℕ) = 1 from rfl, show c5e.Timestamp = 200 from rfl,
      List.nil_append]
  rw [hout]
  have hslope : c5st3.eng.mTrainSlope = 1 := by
    rw [e3]
    dsimp only
    rw [e2]
    unfold trainUpd
    dsimp only
    rw [e1]
    dsimp only
    norm_num [c5t1, c5t0]
  have hoff : c5st3.eng.mTrainOffset = 1000 := by
    rw [e3]
    dsimp only
    rw [e2]
    unfold trainUpd
    dsimp only
    rw [e1]
    dsimp only
    norm_num [c5t1, c5t0]
  have hpstart : c5st3.eng.mTrainProgramStart = 0 := by
    rw [e3]
    dsimp only
    rw [e2]
    unfold trainUpd
    dsimp only
  constructor
  · rfl
  · unfold hwReadEv Engine.convertDeviceToHostTimestamp
    dsimp only [List.getD_cons_zero]
    rw [hslope, hoff, hpstart]
    norm_num

/-- Witness for C5's theorem at a concrete input: the Read transaction
emitted for an emulation read pair (hosts 20 and 30) satisfies
`Start ≤ End`. -/
theorem C5_emu_memory_guard_witness :
    (emuReadEv 0 5 20 10 30).Start ≤ (emuReadEv 0 5 20 10 30).End := by
  have e2 := stepEmu_read_end_pop 1 c4m2
    (stepEmu 0 c4m1
      { eng := { initEngine with
          mNumTraceEvents := initEngine.mNumTraceEvents + [c4m1, c4m2].length },
        out := [], prevHost := 4294967295, x1 := 0, y1 := 0, kt := dfltTrace,
        divZero := false, fwd := [] }) 5 20 [] []
    (by decide) (by decide) (by decide) (by decide) (by decide) (by decide) (by decide)
  have hout : (logTrace true 0 noNames noNames initEngine [c4m1, c4m2] []).out =
      [emuReadEv 0 5 20 10 30] := by
    rw [logTrace_emu_eq 0 noNames noNames initEngine [c4m1, c4m2] [] (by decide) (by simp)]
    simp only []
    show (stepEmu 1 c4m2 (stepEmu 0 c4m1
      { eng := { initEngine with
          mNumTraceEvents := initEngine.mNumTraceEvents + [c4m1, c4m2].length },
        out := [], prevHost := 4294967295, x1 := 0, y1 := 0, kt := dfltTrace,
        divZero := false, fwd := [] })).out = [emuReadEv 0 5 20 10 30]
    rw [e2]
    rfl
  exact C5_emu_memory_guard 0 noNames noNames initEngine [c4m1, c4m2]
    (emuReadEv 0 5 20 10 30) (by rw [hout]; exact List.mem_singleton_self _) (Or.inl rfl)

/-! ### C9: which records reach a decode path -/

/-- A default record for list indexing. -/
def dfltRec : TraceRecord := ⟨0, 0, 0, 0, 0, 0, 0⟩

/-- The emulation-mode decode-range test: ids below 61 go to the memory
matcher, ids 64..94 to the compute-unit tracker. -/
def emuDecodes (id : ℕ) : Bool := decide (id < 61) || (decide (64 ≤ id) && decide (id ≤ 94))

/-- The hardware-mode supported-id test of source lines 197-205. -/
def hwSupported (id : ℕ) : Bool :=
  (decide (64 ≤ id) && decide (id ≤ 544)) || (decide (2 ≤ id) && decide (id ≤ 61))

/-- The indices of the records an emulation-mode loop starting at index `i`
with previous host stamp `p` forwards to a decode path: a record is skipped
exactly when it matches the duplicate-host rule or its id is outside the
decode ranges. -/
def emuSkipWalk (p : ℕ) : ℕ → List TraceRecord → List ℕ
  | _, [] => []
  | i, r :: rs =>
    if r.HostTimestamp = p ∧ r.Timestamp = 1 then emuSkipWalk p (i + 1) rs
    else if emuDecodes r.TraceID then i :: emuSkipWalk (wrap32 r.HostTimestamp) (i + 1) rs
    else emuSkipWalk (wrap32 r.HostTimestamp) (i + 1) rs

/-- The indices of the records a hardware-mode loop starting at index `i`
forwards to a decode path: index 0 is always consumed by clock training, and
otherwise a record is forwarded exactly when its id is in a supported
range. -/
def hwForwardWalk : ℕ → List TraceRecord → List ℕ
  | _, [] => []
  | i, r :: rs =>
    if i ≠ 0 ∧ hwSupported r.TraceID = true then i :: hwForwardWalk (i + 1) rs
    else hwForwardWalk (i + 1) rs

/-- The ghost components of the loop state unchanged between two states. -/
def GhostFrame (a b : LoopSt) : Prop := b.fwd = a.fwd ∧ b.prevHost = a.prevHost

lemma ghostFrame_trans {a b c : LoopSt} (h1 : GhostFrame a b) (h2 : GhostFrame b c) :
    GhostFrame a c :=
  ⟨h2.1.trans h1.1, h2.2.trans h1.2⟩

lemma ghost_emuRead (r : TraceRecord) (s ts h : ℕ) (ls : LoopSt) :
    GhostFrame ls (emuRead r s ts h ls) := by
  simp only [emuRead]
  split_ifs <;> exact ⟨rfl, rfl⟩

lemma ghost_emuWriteEmit (ts h s : ℕ) (ls : LoopSt) :
    GhostFrame ls (emuWriteEmit ts h s ls) := by
  simp only [emuWriteEmit]
  split_ifs <;> exact ⟨rfl, rfl⟩

lemma emuMem_ghost (r : TraceRecord) (ts h : ℕ) (ls : LoopSt) :
    (emuMem r ts h ls).fwd = ls.fwd ∧ (emuMem r ts h ls).prevHost = ls.prevHost := by
  show GhostFrame ls (emuMem r ts h ls)
  simp only [emuMem]
  split_ifs <;>
    first
      | exact ⟨rfl, rfl⟩
      | · refine ghostFrame_trans ?_ (ghost_emuRead _ _ _ _ _)
          first
            | exact ⟨rfl, rfl⟩
            | · refine ghostFrame_trans ?_ (ghost_emuWriteEmit _ _ _ _)
                exact ⟨rfl, rfl⟩

lemma emuCU_ghost (r : TraceRecord) (ts h : ℕ) (ls : LoopSt) :
    (emuCU r ts h ls).fwd = ls.fwd ∧ (emuCU r ts h ls).prevHost = ls.prevHost := by
  show GhostFrame ls (emuCU r ts h ls)
  simp only [emuCU]
  split_ifs <;> exact ⟨rfl, rfl⟩

set_option linter.unreachableTactic false in
set_option linter.unusedTactic false in
lemma stepEmu_fwd (i : ℕ) (r : TraceRecord) (ls : LoopSt) :
    (stepEmu i r ls).fwd =
      (if r.HostTimestamp = ls.prevHost ∧ r.Timestamp = 1 then ls.fwd
       else if emuDecodes r.TraceID then ls.fwd ++ [i] else ls.fwd) := by
  unfold stepEmu
  simp only []
  split_ifs with h1 h2 h3 h4 h5 <;>
    first
      | rfl
      | · rw [(emuMem_ghost _ _ _ _).1]
      | · rw [(emuCU_ghost _ _ _ _).1]
      | · exact absurd (by simp [emuDecodes]; omega) (by simpa using h3)
      | · exact absurd (by simp [emuDecodes] at h4 ⊢; omega) (by simpa using h4)
      | · simp [emuDecodes] at *
          omega

lemma stepEmu_prevHost (i : ℕ) (r : TraceRecord) (ls : LoopSt) :
    (stepEmu i r ls).prevHost =
      (if r.HostTimestamp = ls.prevHost ∧ r.Timestamp = 1 then ls.prevHost
       else wrap32 r.HostTimestamp) := by
  unfold stepEmu
  simp only []
  split_ifs <;>
    first
      | rfl
      | · rw [(emuMem_ghost _ _ _ _).2]
      | · rw [(emuCU_ghost _ _ _ _).2]

lemma ghost_hwSAMcu (r : TraceRecord) (s : ℕ) (ls : LoopSt) :
    GhostFrame ls (hwSAMcu r s ls) := by
  simp only [hwSAMcu]
  split_ifs <;> exact ⟨rfl, rfl⟩

lemma ghost_hwSAMstallInt (r : TraceRecord) (s : ℕ) (ls : LoopSt) :
    GhostFrame ls (hwSAMstallInt r s ls) := by
  simp only [hwSAMstallInt]
  split_ifs <;> exact ⟨rfl, rfl⟩

lemma ghost_hwSAMstallStr (r : TraceRecord) (s : ℕ) (ls : LoopSt) :
    GhostFrame ls (hwSAMstallStr r s ls) := by
  simp only [hwSAMstallStr]
  split_ifs <;> exact ⟨rfl, rfl⟩

lemma ghost_hwSAMstallExt (r : TraceRecord) (s : ℕ) (ls : LoopSt) :
    GhostFrame ls (hwSAMstallExt r s ls) := by
  simp only [hwSAMstallExt]
  split_ifs <;> exact ⟨rfl, rfl⟩

lemma ghost_hwSAM (r : TraceRecord) (ts s : ℕ) (ls : LoopSt) :
    GhostFrame ls (hwSAM r ts s ls) := by
  simp only [hwSAM]
  constructor
  · exact (ghost_hwSAMstallExt r s _).1.trans
      ((ghost_hwSAMstallStr r s _).1.trans
        ((ghost_hwSAMstallInt r s _).1.trans
          ((ghost_hwSAMcu r s _).1.trans rfl)))
  · exact (ghost_hwSAMstallExt r s _).2.trans
      ((ghost_hwSAMstallStr r s _).2.trans
        ((ghost_hwSAMstallInt r s _).2.trans
          ((ghost_hwSAMcu r s _).2.trans rfl)))

lemma ghost_hwRead (r : TraceRecord) (ts s : ℕ) (ls : LoopSt) :
    GhostFrame ls (hwRead r ts s ls) := by
  simp only [hwRead]
  split_ifs <;> exact ⟨rfl, rfl⟩

lemma ghost_hwWrite (r : TraceRecord) (ts s : ℕ) (ls : LoopSt) :
    GhostFrame ls (hwWrite r ts s ls) := by
  simp only [hwWrite]
  split_ifs <;> exact ⟨rfl, rfl⟩

lemma hwDecode_fwd (r : TraceRecord) (ts s : ℕ) (ls : LoopSt) :
    (hwDecode r ts s ls).fwd = ls.fwd := by
  have : GhostFrame ls (hwDecode r ts s ls) := by
    simp only [hwDecode]
    split_ifs
    · exact ghost_hwSAM r ts s ls
    · exact ghost_hwRead r ts s ls
    · exact ghost_hwWrite r ts s ls
    · exact ⟨rfl, rfl⟩
  exact this.1

set_option linter.unreachableTactic false in
set_option linter.unusedTactic false in
lemma stepHW_fwd (ps : ℚ) (i : ℕ) (r : TraceRecord) (ls : LoopSt) :
    (stepHW ps i r ls).fwd =
      (if i = 0 then ls.fwd
       else if hwSupported r.TraceID then ls.fwd ++ [i] else ls.fwd) := by
  unfold stepHW
  simp only []
  split_ifs with h1 h2 h3 h4 h5 <;>
    first
      | rfl
      | · rw [hwDecode_fwd]
      | · exact absurd (by simp [hwSupported]; omega) (by simpa using h3)
      | · exact absurd (by simp [hwSupported]; omega) (by simpa using h4)
      | · simp [hwSupported] at *
          omega

lemma runEmu_fwd (recs : List TraceRecord) :
    ∀ (i : ℕ) (ls : LoopSt),
      (runEmu i recs ls).fwd = ls.fwd ++ emuSkipWalk ls.prevHost i recs := by
  induction recs with
  | nil => intro i ls; simp [runEmu, emuSkipWalk]
  | cons r rest ih =>
      intro i ls
      show (runEmu (i + 1) rest (stepEmu i r ls)).fwd = _
      rw [ih (i + 1) (stepEmu i r ls), stepEmu_fwd, stepEmu_prevHost]
      rw [show emuSkipWalk ls.prevHost i (r :: rest) =
        (if r.HostTimestamp = ls.prevHost ∧ r.Timestamp = 1 then
          emuSkipWalk ls.prevHost (i + 1) rest
         else if emuDecodes r.TraceID then
          i :: emuSkipWalk (wrap32 r.HostTimestamp) (i + 1) rest
         else emuSkipWalk (wrap32 r.HostTimestamp) (i + 1) rest) from rfl]
      split_ifs <;> simp

lemma runHW_fwd (ps : ℚ) (recs : List TraceRecord) :
    ∀ (i : ℕ) (ls : LoopSt),
      (runHW ps i recs ls).fwd = ls.fwd ++ hwForwardWalk i recs := by
  induction recs with
  | nil => intro i ls; simp [runHW, hwForwardWalk]
  | cons r rest ih =>
      intro i ls
      show (runHW ps (i + 1) rest (stepHW ps i r ls)).fwd = _
      rw [ih (i + 1) (stepHW ps i r ls), stepHW_fwd]
      rw [show hwForwardWalk i (r :: rest) =
        (if i ≠ 0 ∧ hwSupported r.TraceID = true then i :: hwForwardWalk (i + 1) rest
         else hwForwardWalk (i + 1) rest) from rfl]
      by_cases h0 : i = 0
      · subst h0
        rw [if_pos rfl, if_neg (by simp)]
      · rw [if_neg h0]
        by_cases hs : hwSupported r.TraceID = true
        · rw [if_pos hs, if_pos ⟨h0, hs⟩]
          simp
        · rw [if_neg hs, if_neg (by tauto)]

lemma cuApprox_fwd (cn pn : ℕ → String) (ls : LoopSt) :
    (cuApprox cn pn ls).fwd = ls.fwd := by
  unfold cuApprox
  generalize List.range XSAM_MAX_NUMBER_SLOTS = l
  induction l generalizing ls with
  | nil => rfl
  | cons j rest ih =>
      rw [List.foldl_cons, ih]
      unfold approxSlot
      simp only []
      split_ifs <;> rfl

lemma emuSkipWalk_ge (recs : List TraceRecord) :
    ∀ (p i j : ℕ), j ∈ emuSkipWalk p i recs → i ≤ j := by
  induction recs with
  | nil => intro p i j h; simp [emuSkipWalk] at h
  | cons r rest ih =>
      intro p i j h
      unfold emuSkipWalk at h
      split_ifs at h with h1 h2
      · have := ih p (i + 1) j h
        omega
      · rcases List.mem_cons.mp h with h | h
        · omega
        · have := ih (wrap32 r.HostTimestamp) (i + 1) j h
          omega
      · have := ih (wrap32 r.HostTimestamp) (i + 1) j h
        omega

lemma emuSkipWalk_nodup (recs : List TraceRecord) :
    ∀ (p i : ℕ), (emuSkipWalk p i recs).Nodup := by
  induction recs with
  | nil => intro p i; simp [emuSkipWalk]
  | cons r rest ih =>
      intro p i
      unfold emuSkipWalk
      split_ifs
      · exact ih p (i + 1)
      · refine List.nodup_cons.mpr ⟨fun hmem => ?_, ih _ (i + 1)⟩
        have := emuSkipWalk_ge rest (wrap32 r.HostTimestamp) (i + 1) i hmem
        omega
      · exact ih _ (i + 1)

lemma hwForwardWalk_ge (recs : List TraceRecord) :
    ∀ (i j : ℕ), j ∈ hwForwardWalk i recs → i ≤ j := by
  induction recs with
  | nil => intro i j h; simp [hwForwardWalk] at h
  | cons r rest ih =>
      intro i j h
      unfold hwForwardWalk at h
      split_ifs at h
      · rcases List.mem_cons.mp h with h | h
        · omega
        · have := ih (i + 1) j h
          omega
      · have := ih (i + 1) j h
        omega

lemma hwForwardWalk_nodup (recs : List TraceRecord) :
    ∀ i : ℕ, (hwForwardWalk i recs).Nodup := by
  induction recs with
  | nil => intro i; simp [hwForwardWalk]
  | cons r rest ih =>
      intro i
      unfold hwForwardWalk
      split_ifs
      · refine List.nodup_cons.mpr ⟨fun hmem => ?_, ih (i + 1)⟩
        have := hwForwardWalk_ge rest (i + 1) i hmem
        omega
      · exact ih (i + 1)

lemma hwForwardWalk_mem (recs : List TraceRecord) :
    ∀ (i j : ℕ), j ∈ hwForwardWalk i recs ↔
      ∃ k, k < recs.length ∧ j = i + k ∧ i + k ≠ 0 ∧
        hwSupported ((recs.getD k dfltRec).TraceID) = true := by
  induction recs with
  | nil =>
      intro i j
      simp [hwForwardWalk]
  | cons r rest ih =>
      intro i j
      unfold hwForwardWalk
      constructor
      · intro h
        split_ifs at h with hc
        · rcases List.mem_cons.mp h with h | h
          · exact ⟨0, by simp, by omega, by omega, by simpa [List.getD_cons_zero] using hc.2⟩
          · obtain ⟨k, hk, hj, hne, hs⟩ := (ih (i + 1) j).mp h
            exact ⟨k + 1, by simpa using hk, by omega, by omega,
              by simpa [List.getD_cons_succ] using hs⟩
        · obtain ⟨k, hk, hj, hne, hs⟩ := (ih (i + 1) j).mp h
          exact ⟨k + 1, by simpa using hk, by omega, by omega,
            by simpa [List.getD_cons_succ] using hs⟩
      · rintro ⟨k, hk, hj, hne, hs⟩
        cases k with
        | zero =>
            rw [List.getD_cons_zero] at hs
            rw [if_pos ⟨by omega, hs⟩]
            have hji : j = i := by omega
            subst hji
            exact List.mem_cons_self _ _
        | succ k2 =>
            have hmem := (ih (i + 1) j).mpr
              ⟨k2, by simpa using hk, by omega, by omega,
                by simpa [List.getD_cons_succ] using hs⟩
            split_ifs
            · exact List.mem_cons_of_mem _ hmem
            · exact hmem

/-- C9 (corrected): the records that reach a decode path. In emulation mode
a record is forwarded exactly once unless it matches the duplicate-host skip
rule or its id is outside all decode ranges (`emuSkipWalk`). In hardware
mode there is a *third* rule: the first record of every batch is consumed
solely by clock training and never forwarded; each later record is forwarded
exactly once if and only if its id is in a supported range. -/
theorem C9_forwarded_records (ps : ℚ) (cn pn : ℕ → String) (eng0 : Engine)
    (tv : List TraceRecord) (rv : List DeviceTrace)
    (h1 : eng0.mNumTraceEvents < eng0.mMaxTraceEvents) (h2 : tv ≠ []) :
    ((logTrace true ps cn pn eng0 tv rv).fwd = emuSkipWalk 4294967295 0 tv ∧
      (logTrace true ps cn pn eng0 tv rv).fwd.Nodup) ∧
    ((logTrace false ps cn pn eng0 tv rv).fwd = hwForwardWalk 0 tv ∧
      (logTrace false ps cn pn eng0 tv rv).fwd.Nodup ∧
      ∀ j, j ∈ (logTrace false ps cn pn eng0 tv rv).fwd ↔
        (j < tv.length ∧ j ≠ 0 ∧ hwSupported ((tv.getD j dfltRec).TraceID) = true)) := by
  have hemu : (logTrace true ps cn pn eng0 tv rv).fwd = emuSkipWalk 4294967295 0 tv := by
    rw [logTrace_emu_eq ps cn pn eng0 tv rv h1 h2]
    simp only []
    rw [runEmu_fwd]
    simp
  have hhw : (logTrace false ps cn pn eng0 tv rv).fwd = hwForwardWalk 0 tv := by
    rw [logTrace_hw_eq ps cn pn eng0 tv rv h1 h2]
    simp only []
    rw [cuApprox_fwd, runHW_fwd]
    simp
  refine ⟨⟨hemu, ?_⟩, hhw, ?_, ?_⟩
  · rw [hemu]
    exact emuSkipWalk_nodup tv 4294967295 0
  · rw [hhw]
    exact hwForwardWalk_nodup tv 0
  · intro j
    rw [hhw, hwForwardWalk_mem tv 0 j]
    constructor
    · rintro ⟨k, hk, hj, hne, hs⟩
      exact ⟨by omega, by omega, by rwa [show k = j by omega] at hs⟩
    · rintro ⟨hlen, hne, hs⟩
      exact ⟨j, hlen, by omega, by omega, hs⟩

/-- C9 counterexample record: a valid hardware read-start at device time 10
(id 2, in the supported range, matching neither of the claim's two skip
rules). -/
def c9s : TraceRecord := ⟨10, 0, 2, 0, XCL_PERF_MON_START_EVENT, 0, 0⟩

/-- C9 counterexample record: the matching read-end at device time 15. -/
def c9e : TraceRecord := ⟨15, 0, 2, 0, XCL_PERF_MON_END_EVENT, 0, 0⟩

set_option maxRecDepth 8000 in
/-- Counterexample for C9 as stated: in the hardware batch
`[read-start@10, read-end@15]` the first record is a valid memory event that
matches neither of the claim's two skip rules, yet it is consumed by clock
training and never forwarded to a decode path (`fwd = [1]`): its start is
never pushed, so the following end event mis-pairs into a degenerate
transaction `{start = 15, end = 15, burst = 1}`. -/
theorem C9_counterexample :
    (logTrace false 0 noNames noNames initEngine [c9s, c9e] []).fwd = [1] ∧
    (logTrace false 0 noNames noNames initEngine [c9s, c9e] []).out.map
      (fun e => (e.StartTime, e.EndTime, e.BurstLength)) = [(15, 15, 1)] := by
  constructor
  · decide
  · decide

/-- Witness for C9 at a concrete input: the hardware batch of the
counterexample forwards exactly record 1. -/
theorem C9_forwarded_witness :
    (logTrace false 0 noNames noNames initEngine [c9s, c9e] []).fwd =
      hwForwardWalk 0 [c9s, c9e] :=
  ((C9_forwarded_records 0 noNames noNames initEngine [c9s, c9e] []
    (by decide) (by simp)).2).1

/-! ### C1: FIFO pairing of start and end events on one memory slot -/

/-- The mode-independent observable of an emitted transaction: its type tag,
slot, device start and end timestamps, and burst length. -/
def devProj (e : DeviceTrace) : String × ℕ × ℕ × ℕ × ℕ :=
  (e.Ty, e.SlotNum, e.StartTime, e.EndTime, e.BurstLength)

/-- A hardware-mode memory start record on trace id `rid` at device time
`a`. -/
def hwStartRec (rid a : ℕ) : TraceRecord := ⟨a, 0, rid, 0, XCL_PERF_MON_START_EVENT, 0, 0⟩

/-- A hardware-mode memory end record on trace id `rid` at device time
`b`. -/
def hwEndRec (rid b : ℕ) : TraceRecord := ⟨b, 0, rid, 0, XCL_PERF_MON_END_EVENT, 0, 0⟩

/-- An emulation-mode memory record on trace id `rid` with event flags `fl`,
device delta `d`, and host timestamp `h`. -/
def emuRec (rid fl d h : ℕ) : TraceRecord := ⟨d, h, rid, fl, 0, 0, 0⟩

/-- The accumulated (`uint32_t`) device timestamps of a list of emulation
deltas starting from previous timestamp `p`, mirroring the
`timestamp = trace.Timestamp + mPrevTimestamp[type]` accumulation. -/
def accTimes (p : ℕ) : List ℕ → List ℕ
  | [] => []
  | d :: ds => wrap32 (d + p) :: accTimes (wrap32 (d + p)) ds

/-- The final accumulated device timestamp after a list of emulation
deltas. -/
def accLast (p : ℕ) : List ℕ → ℕ
  | [] => p
  | d :: ds => accLast (wrap32 (d + p)) ds

/-- The Write transaction built by the emulation memory path (source lines
234-250) from device start `a`, host start `ah`, device end `e` and host end
`h` (with `Start < End`, so no zero-length padding is applied). -/
def emuWriteEv (s a ah e h : ℕ) : DeviceTrace :=
  { SlotNum := s, Name := "", Ty := "Write", Kind := 0, StartTime := a, EndTime := e,
    Start := (ah : ℚ) / 1000000, End := (h : ℚ) / 1000000,
    TraceStart := (ah : ℚ) / 1000000, BurstLength := burstLen a e, NumBytes := 0 }

/-- The Read transactions emitted by an emulation end phase: queued device
starts `S` and host starts `H` paired positionally with accumulated device
ends `T` and host ends `G`. -/
def emuEvsR (s : ℕ) : List ℕ → List ℕ → List ℕ → List ℕ → List DeviceTrace
  | a :: S, ah :: H, e :: T, h :: G => emuReadEv s a ah e h :: emuEvsR s S H T G
  | _, _, _, _ => []

/-- The Write counterpart of `emuEvsR`. -/
def emuEvsW (s : ℕ) : List ℕ → List ℕ → List ℕ → List ℕ → List DeviceTrace
  | a :: S, ah :: H, e :: T, h :: G => emuWriteEv s a ah e h :: emuEvsW s S H T G
  | _, _, _, _ => []

lemma runHW_append (ps : ℚ) (l1 l2 : List TraceRecord) :
    ∀ (i : ℕ) (ls : LoopSt),
      runHW ps i (l1 ++ l2) ls = runHW ps (i + l1.length) l2 (runHW ps i l1 ls) := by
  induction l1 with
  | nil => intro i ls; simp [runHW]
  | cons r rest ih =>
      intro i ls
      show runHW ps (i + 1) (rest ++ l2) (stepHW ps i r ls) = _
      rw [ih (i + 1) (stepHW ps i r ls)]
      have h : i + 1 + rest.length = i + (r :: rest).length := by
        simp [List.length_cons]
        omega
      rw [h]
      rfl

lemma runEmu_append (l1 l2 : List TraceRecord) :
    ∀ (i : ℕ) (ls : LoopSt),
      runEmu i (l1 ++ l2) ls = runEmu (i + l1.length) l2 (runEmu i l1 ls) := by
  induction l1 with
  | nil => intro i ls; simp [runEmu]
  | cons r rest ih =>
      intro i ls
      show runEmu (i + 1) (rest ++ l2) (stepEmu i r ls) = _
      rw [ih (i + 1) (stepEmu i r ls)]
      have h : i + 1 + rest.length = i + (r :: rest).length := by
        simp [List.length_cons]
        omega
      rw [h]
      rfl

lemma burstLen_eq (a b : ℕ) (hab : a ≤ b) (hb : b < 2 ^ 32) :
    burstLen a b = b - a + 1 := by
  unfold burstLen sub64
  have h1 : a % 2 ^ 64 = a := Nat.mod_eq_of_lt (by omega)
  rw [h1]
  have h2 : (b + 2 ^ 64 - a) % 2 ^ 64 = b - a := by omega
  rw [h2]
  omega

lemma hwDecode_mask (r : TraceRecord) (ts s : ℕ) (ls : LoopSt) (h : r.TraceID < 64) :
    (hwDecode r ts s ls).eng.mAccelMonStartedEvents = ls.eng.mAccelMonStartedEvents := by
  unfold hwDecode hwRead hwWrite
  simp only []
  rw [if_neg (by omega : ¬ 64 ≤ r.TraceID)]
  split_ifs <;> rfl

lemma stepHW_mask (ps : ℚ) (i : ℕ) (r : TraceRecord) (ls : LoopSt) (h : r.TraceID < 64) :
    (stepHW ps i r ls).eng.mAccelMonStartedEvents = ls.eng.mAccelMonStartedEvents := by
  unfold stepHW
  simp only []
  split_ifs <;>
    first
      | rfl
      | omega
      | · rw [hwDecode_mask _ _ _ _ h]

lemma runHW_mask (ps : ℚ) (recs : List TraceRecord) :
    ∀ (i : ℕ) (ls : LoopSt), (∀ r ∈ recs, r.TraceID < 64) →
      (runHW ps i recs ls).eng.mAccelMonStartedEvents = ls.eng.mAccelMonStartedEvents := by
  induction recs with
  | nil => intro i ls _; rfl
  | cons r rest ih =>
      intro i ls hall
      show (runHW ps (i + 1) rest (stepHW ps i r ls)).eng.mAccelMonStartedEvents = _
      rw [ih (i + 1) (stepHW ps i r ls) (fun x hx => hall x (List.mem_cons_of_mem r hx)),
        stepHW_mask ps i r ls (hall r (List.mem_cons_self r rest))]

lemma stepHW_write_start (ps : ℚ) (i : ℕ) (r : TraceRecord) (ls : LoopSt)
    (hi : 2 ≤ i) (hlo : 2 ≤ r.TraceID) (hhi : r.TraceID ≤ 61) (hpar : r.TraceID % 2 = 1)
    (het : r.EventType = XCL_PERF_MON_START_EVENT)
    (hovf : r.Overflow ≠ 1) (hts : r.Timestamp < 2 ^ 32) :
    stepHW ps i r ls =
      { ls with
        eng := { ls.eng with
          mWriteStarts := Function.update ls.eng.mWriteStarts (r.TraceID / 2)
            (ls.eng.mWriteStarts (r.TraceID / 2) ++ [r.Timestamp]) },
        fwd := ls.fwd ++ [i] } := by
  unfold stepHW hwDecode hwWrite
  simp only []
  rw [if_neg (by omega : ¬ i = 0), if_neg (by omega : ¬ i = 1),
    if_neg (by omega : ¬(64 ≤ r.TraceID ∧ r.TraceID ≤ 544)),
    if_pos ⟨hlo, hhi⟩, if_neg hovf,
    if_neg (by omega : ¬ 64 ≤ r.TraceID),
    if_neg (by simp [IS_READ, hpar]), if_pos (by simp [IS_WRITE, hpar]), if_pos het]
  have : wrap32 r.Timestamp = r.Timestamp := Nat.mod_eq_of_lt hts
  rw [this]

lemma stepHW_write_end_pop (ps : ℚ) (i : ℕ) (r : TraceRecord) (ls : LoopSt)
    (a : ℕ) (q : List ℕ)
    (hi : 2 ≤ i) (hlo : 2 ≤ r.TraceID) (hhi : r.TraceID ≤ 61) (hpar : r.TraceID % 2 = 1)
    (het : r.EventType = XCL_PERF_MON_END_EVENT)
    (hrsv : r.Reserved ≠ 1)
    (hovf : r.Overflow ≠ 1) (hts : r.Timestamp < 2 ^ 32)
    (hq : ls.eng.mWriteStarts (r.TraceID / 2) = a :: q) :
    stepHW ps i r ls =
      { ls with
        eng := { ls.eng with
          mWriteStarts := Function.update ls.eng.mWriteStarts (r.TraceID / 2) q,
          mPerfMonLastTranx :=
            Function.update ls.eng.mPerfMonLastTranx (r.TraceID / 2) r.Timestamp },
        out := ls.out ++ [hwWriteEv ls.eng (r.TraceID / 2) a r.Timestamp],
        fwd := ls.fwd ++ [i] } := by
  unfold stepHW hwDecode hwWrite hwWriteEv
  simp only []
  rw [if_neg (by omega : ¬ i = 0), if_neg (by omega : ¬ i = 1),
    if_neg (by omega : ¬(64 ≤ r.TraceID ∧ r.TraceID ≤ 544)),
    if_pos ⟨hlo, hhi⟩, if_neg hovf,
    if_neg (by omega : ¬ 64 ≤ r.TraceID),
    if_neg (by simp [IS_READ, hpar]), if_pos (by simp [IS_WRITE, hpar]),
    if_neg (by rw [het]; exact (by decide :
      ¬ XCL_PERF_MON_END_EVENT = XCL_PERF_MON_START_EVENT)),
    if_pos het]
  have hw : wrap32 r.Timestamp = r.Timestamp := Nat.mod_eq_of_lt hts
  rw [hw, hq]
  rw [if_neg (by rintro (h | h); exact hrsv h; simp at h)]
  rw [if_neg hrsv, if_neg (by simp : ¬ (a :: q).isEmpty = true)]
  simp only [List.headD_cons, List.tail_cons]
  rfl

lemma stepEmu_write_start (i : ℕ) (r : TraceRecord) (ls : LoopSt)
    (hovf : r.Overflow ≠ 1)
    (hdup : ¬(r.HostTimestamp = ls.prevHost ∧ r.Timestamp = 1))
    (hid : r.TraceID < 61) (hfl : r.EventFlags = 1) :
    stepEmu i r ls =
      { ls with
        eng := { ls.eng with
          mPrevTimestamp := wrap32 (r.Timestamp + ls.eng.mPrevTimestamp),
          mWriteStarts := Function.update ls.eng.mWriteStarts (r.TraceID / 2)
            (ls.eng.mWriteStarts (r.TraceID / 2) ++
              [wrap32 (r.Timestamp + ls.eng.mPrevTimestamp)]),
          mHostWriteStarts := Function.update ls.eng.mHostWriteStarts (r.TraceID / 2)
            (ls.eng.mHostWriteStarts (r.TraceID / 2) ++ [r.HostTimestamp]) },
        prevHost := wrap32 r.HostTimestamp,
        fwd := ls.fwd ++ [i] } := by
  unfold stepEmu emuMem emuRead getTimestampNsec
  simp only []
  rw [if_neg hovf, if_neg hdup, if_pos hid, hfl]
  rw [if_pos (by decide : getBit 1 XAPM_WRITE_FIRST = 1),
    if_neg (by decide : ¬ getBit 1 XAPM_WRITE_LAST = 1),
    if_neg (by decide : ¬ getBit 1 XAPM_READ_FIRST = 1),
    if_neg (by decide : ¬ getBit 1 XAPM_READ_LAST = 1)]

lemma emuRead_noop (r : TraceRecord) (s ts h : ℕ) (ls : LoopSt)
    (h1 : ¬ getBit r.EventFlags XAPM_READ_FIRST = 1)
    (h2 : ¬ getBit r.EventFlags XAPM_READ_LAST = 1) :
    emuRead r s ts h ls = ls := by
  unfold emuRead
  simp only []
  rw [if_neg h1, if_neg h2]

lemma emuWriteEmit_pop (ts h s : ℕ) (ls1 : LoopSt)
    (a ah : ℕ) (q qh : List ℕ)
    (hq : ls1.eng.mWriteStarts s = a :: q)
    (hqh : ls1.eng.mHostWriteStarts s = ah :: qh)
    (hlt : ah < h) :
    emuWriteEmit ts h s ls1 =
      { ls1 with
        eng := { ls1.eng with
          mWriteStarts := Function.update ls1.eng.mWriteStarts s q,
          mHostWriteStarts := Function.update ls1.eng.mHostWriteStarts s qh },
        out := ls1.out ++ [emuWriteEv s a ah ts h] } := by
  have hl : (ah : ℚ) / 1000000 < (h : ℚ) / 1000000 := by
    gcongr
  unfold emuWriteEmit emuWriteEv
  simp only []
  rw [hq, hqh]
  simp only [List.headD_cons, List.tail_cons]
  rw [if_neg (ne_of_lt hl), if_pos (le_of_lt hl)]

lemma stepEmu_write_end_pop (i : ℕ) (r : TraceRecord) (ls : LoopSt)
    (a ah : ℕ) (q qh : List ℕ)
    (hovf : r.Overflow ≠ 1)
    (hdup : ¬(r.HostTimestamp = ls.prevHost ∧ r.Timestamp = 1))
    (hid : r.TraceID < 61) (hfl : r.EventFlags = 2)
    (hq : ls.eng.mWriteStarts (r.TraceID / 2) = a :: q)
    (hqh : ls.eng.mHostWriteStarts (r.TraceID / 2) = ah :: qh)
    (hlt : ah < r.HostTimestamp) :
    stepEmu i r ls =
      { ls with
        eng := { ls.eng with
          mPrevTimestamp := wrap32 (r.Timestamp + ls.eng.mPrevTimestamp),
          mWriteStarts := Function.update ls.eng.mWriteStarts (r.TraceID / 2) q,
          mHostWriteStarts := Function.update ls.eng.mHostWriteStarts (r.TraceID / 2) qh },
        prevHost := wrap32 r.HostTimestamp,
        out := ls.out ++
          [emuWriteEv (r.TraceID / 2) a ah (wrap32 (r.Timestamp + ls.eng.mPrevTimestamp))
            r.HostTimestamp],
        fwd := ls.fwd ++ [i] } := by
  unfold stepEmu emuMem getTimestampNsec
  simp only []
  rw [if_neg hovf, if_neg hdup, if_pos hid, hfl]
  rw [if_neg (by decide : ¬ getBit 2 XAPM_WRITE_FIRST = 1),
    if_pos (by decide : getBit 2 XAPM_WRITE_LAST = 1)]
  rw [hq]
  rw [if_neg (by simp : ¬ List.isEmpty (a :: q) = true)]
  rw [emuWriteEmit_pop _ _ _ _ a ah q qh (by exact hq) (by exact hqh) hlt]
  rw [emuRead_noop _ _ _ _ _
    (by rw [hfl]; exact (by decide : ¬ getBit 2 XAPM_READ_FIRST = 1))
    (by rw [hfl]; exact (by decide : ¬ getBit 2 XAPM_READ_LAST = 1))]

lemma hwReadStartsPhase (ps : ℚ) (rid : ℕ) (starts : List ℕ) :
    ∀ (i : ℕ) (ls : LoopSt),
      2 ≤ i → 2 ≤ rid → rid ≤ 61 → rid % 2 = 0 →
      (∀ a ∈ starts, a < 2 ^ 32) →
      runHW ps i (starts.map (hwStartRec rid)) ls =
        { ls with
          eng := { ls.eng with
            mReadStarts := Function.update ls.eng.mReadStarts (rid / 2)
              (ls.eng.mReadStarts (rid / 2) ++ starts) },
          fwd := ls.fwd ++ List.range' i starts.length } := by
  induction starts with
  | nil =>
      intro i ls _ _ _ _ _
      simp [runHW, Function.update_eq_self]
  | cons a rest ih =>
      intro i ls hi h2 h61 hpar hbound
      rw [List.map_cons]
      show runHW ps (i + 1) (rest.map (hwStartRec rid)) (stepHW ps i (hwStartRec rid a) ls) = _
      rw [stepHW_read_start ps i (hwStartRec rid a) ls hi h2 h61 hpar rfl
        (by exact (by decide : (0 : ℕ) ≠ 1)) (hbound a (List.mem_cons_self a rest))]
      rw [ih (i + 1) _ (by omega) h2 h61 hpar
        (fun x hx => hbound x (List.mem_cons_of_mem a hx))]
      simp [hwStartRec, Function.update_idem, Function.update_same, List.range'_succ]

lemma hwReadEndsPhase (ps : ℚ) (rid : ℕ) (ends : List ℕ) :
    ∀ (i : ℕ) (ls : LoopSt) (S : List ℕ),
      2 ≤ i → 2 ≤ rid → rid ≤ 61 → rid % 2 = 0 →
      (∀ b ∈ ends, b < 2 ^ 32) →
      ls.eng.mReadStarts (rid / 2) = S → ends.length ≤ S.length →
      (runHW ps i (ends.map (hwEndRec rid)) ls).out.map devProj =
        ls.out.map devProj ++
          (S.zip ends).map (fun p => ("Read", rid / 2, p.1, p.2, burstLen p.1 p.2)) := by
  induction ends with
  | nil =>
      intro i ls S _ _ _ _ _ _ _
      simp [runHW]
  | cons b ebs ih =>
      intro i ls S hi h2 h61 hpar hbound hq hlen
      rcases S with _ | ⟨a, S2⟩
      · simp at hlen
      rw [List.map_cons]
      show (runHW ps (i + 1) (ebs.map (hwEndRec rid))
        (stepHW ps i (hwEndRec rid b) ls)).out.map devProj = _
      rw [stepHW_read_end_pop ps i (hwEndRec rid b) ls a S2 hi h2 h61 hpar rfl
        (by exact (by decide : (0 : ℕ) ≠ 1)) (by exact (by decide : (0 : ℕ) ≠ 1))
        (hbound b (List.mem_cons_self b ebs)) (by exact hq)]
      rw [ih (i + 1) _ S2 (by omega) h2 h61 hpar
        (fun x hx => hbound x (List.mem_cons_of_mem b hx))
        (by simp [hwEndRec, Function.update_same]) (by simpa using hlen)]
      simp [hwEndRec, devProj, hwReadEv, List.zip_cons_cons]

lemma hwWriteStartsPhase (ps : ℚ) (rid : ℕ) (starts : List ℕ) :
    ∀ (i : ℕ) (ls : LoopSt),
      2 ≤ i → 2 ≤ rid → rid ≤ 61 → rid % 2 = 1 →
      (∀ a ∈ starts, a < 2 ^ 32) →
      runHW ps i (starts.map (hwStartRec rid)) ls =
        { ls with
          eng := { ls.eng with
            mWriteStarts := Function.update ls.eng.mWriteStarts (rid / 2)
              (ls.eng.mWriteStarts (rid / 2) ++ starts) },
          fwd := ls.fwd ++ List.range' i starts.length } := by
  induction starts with
  | nil =>
      intro i ls _ _ _ _ _
      simp [runHW, Function.update_eq_self]
  | cons a rest ih =>
      intro i ls hi h2 h61 hpar hbound
      rw [List.map_cons]
      show runHW ps (i + 1) (rest.map (hwStartRec rid)) (stepHW ps i (hwStartRec rid a) ls) = _
      rw [stepHW_write_start ps i (hwStartRec rid a) ls hi h2 h61 hpar rfl
        (by exact (by decide : (0 : ℕ) ≠ 1)) (hbound a (List.mem_cons_self a rest))]
      rw [ih (i + 1) _ (by omega) h2 h61 hpar
        (fun x hx => hbound x (List.mem_cons_of_mem a hx))]
      simp [hwStartRec, Function.update_idem, Function.update_same, List.range'_succ]

lemma hwWriteEndsPhase (ps : ℚ) (rid : ℕ) (ends : List ℕ) :
    ∀ (i : ℕ) (ls : LoopSt) (S : List ℕ),
      2 ≤ i → 2 ≤ rid → rid ≤ 61 → rid % 2 = 1 →
      (∀ b ∈ ends, b < 2 ^ 32) →
      ls.eng.mWriteStarts (rid / 2) = S → ends.length ≤ S.length →
      (runHW ps i (ends.map (hwEndRec rid)) ls).out.map devProj =
        ls.out.map devProj ++
          (S.zip ends).map (fun p => ("Write", rid / 2, p.1, p.2, burstLen p.1 p.2)) := by
  induction ends with
  | nil =>
      intro i ls S _ _ _ _ _ _ _
      simp [runHW]
  | cons b ebs ih =>
      intro i ls S hi h2 h61 hpar hbound hq hlen
      rcases S with _ | ⟨a, S2⟩
      · simp at hlen
      rw [List.map_cons]
      show (runHW ps (i + 1) (ebs.map (hwEndRec rid))
        (stepHW ps i (hwEndRec rid b) ls)).out.map devProj = _
      rw [stepHW_write_end_pop ps i (hwEndRec rid b) ls a S2 hi h2 h61 hpar rfl
        (by exact (by decide : (0 : ℕ) ≠ 1)) (by exact (by decide : (0 : ℕ) ≠ 1))
        (hbound b (List.mem_cons_self b ebs)) (by exact hq)]
      rw [ih (i + 1) _ S2 (by omega) h2 h61 hpar
        (fun x hx => hbound x (List.mem_cons_of_mem b hx))
        (by simp [hwEndRec, Function.update_same]) (by simpa using hlen)]
      simp [hwEndRec, devProj, hwWriteEv, List.zip_cons_cons]

/-- The host timestamp of the last record of an emulation phase, `d` when
the phase is empty (the running `prevHostTimestamp` value). -/
def lastHost (d : ℕ) : List (ℕ × ℕ) → ℕ
  | [] => d
  | p :: rest => lastHost p.2 rest

lemma emuReadStartsPhase (rid : ℕ) (sps : List (ℕ × ℕ)) :
    ∀ (i : ℕ) (ls : LoopSt),
      rid < 61 →
      (∀ p ∈ sps, p.2 < 2 ^ 32) →
      List.Chain (fun x y => x ≠ y) ls.prevHost (sps.map Prod.snd) →
      runEmu i (sps.map (fun p => emuRec rid 4 p.1 p.2)) ls =
        { ls with
          eng := { ls.eng with
            mPrevTimestamp := accLast ls.eng.mPrevTimestamp (sps.map Prod.fst),
            mReadStarts := Function.update ls.eng.mReadStarts (rid / 2)
              (ls.eng.mReadStarts (rid / 2) ++
                accTimes ls.eng.mPrevTimestamp (sps.map Prod.fst)),
            mHostReadStarts := Function.update ls.eng.mHostReadStarts (rid / 2)
              (ls.eng.mHostReadStarts (rid / 2) ++ sps.map Prod.snd) },
          prevHost := lastHost ls.prevHost sps,
          fwd := ls.fwd ++ List.range' i sps.length } := by
  induction sps with
  | nil =>
      intro i ls _ _ _
      simp [runEmu, accLast, accTimes, lastHost, Function.update_eq_self]
  | cons p rest ih =>
      intro i ls hid h32 hchain
      rw [List.map_cons]
      show runEmu (i + 1) (rest.map (fun p => emuRec rid 4 p.1 p.2))
        (stepEmu i (emuRec rid 4 p.1 p.2) ls) = _
      rw [stepEmu_read_start i (emuRec rid 4 p.1 p.2) ls
        (by exact (by decide : (0 : ℕ) ≠ 1))
        (fun hc => ((List.chain_cons.mp hchain).1 hc.1.symm).elim) hid rfl]
      rw [ih (i + 1) _ hid (fun x hx => h32 x (List.mem_cons_of_mem p hx))
        (by
          have h2 := (List.chain_cons.mp hchain).2
          have hwr : wrap32 p.2 = p.2 :=
            Nat.mod_eq_of_lt (h32 p (List.mem_cons_self p rest))
          simpa [emuRec, hwr] using h2)]
      have hwr : wrap32 p.2 = p.2 := Nat.mod_eq_of_lt (h32 p (List.mem_cons_self p rest))
      simp [emuRec, accLast, accTimes, lastHost, hwr, Function.update_idem,
        Function.update_same, List.range'_succ]

lemma emuReadEndsPhase (rid : ℕ) (eps : List (ℕ × ℕ)) :
    ∀ (i : ℕ) (ls : LoopSt) (S H : List ℕ),
      rid < 61 →
      (∀ p ∈ eps, p.2 < 2 ^ 32) →
      List.Chain (fun x y => x ≠ y) ls.prevHost (eps.map Prod.snd) →
      ls.eng.mReadStarts (rid / 2) = S →
      ls.eng.mHostReadStarts (rid / 2) = H →
      eps.length ≤ S.length → eps.length ≤ H.length →
      (∀ ah ∈ H, ∀ p ∈ eps, ah < p.2) →
      runEmu i (eps.map (fun p => emuRec rid 8 p.1 p.2)) ls =
        { ls with
          eng := { ls.eng with
            mPrevTimestamp := accLast ls.eng.mPrevTimestamp (eps.map Prod.fst),
            mReadStarts := Function.update ls.eng.mReadStarts (rid / 2) (S.drop eps.length),
            mHostReadStarts :=
              Function.update ls.eng.mHostReadStarts (rid / 2) (H.drop eps.length) },
          prevHost := lastHost ls.prevHost eps,
          out := ls.out ++ emuEvsR (rid / 2) S H
            (accTimes ls.eng.mPrevTimestamp (eps.map Prod.fst)) (eps.map Prod.snd),
          fwd := ls.fwd ++ List.range' i eps.length } := by
  induction eps with
  | nil =>
      intro i ls S H _ _ _ hq hqh _ _ _
      rw [← hq, ← hqh]
      simp [runEmu, accLast, accTimes, emuEvsR, lastHost, Function.update_eq_self]
  | cons p rest ih =>
      intro i ls S H hid h32 hchain hq hqh hlenS hlenH hlt
      rcases S with _ | ⟨a, S2⟩
      · simp at hlenS
      rcases H with _ | ⟨ah, H2⟩
      · simp at hlenH
      rw [List.map_cons]
      show runEmu (i + 1) (rest.map (fun p => emuRec rid 8 p.1 p.2))
        (stepEmu i (emuRec rid 8 p.1 p.2) ls) = _
      rw [stepEmu_read_end_pop i (emuRec rid 8 p.1 p.2) ls a ah S2 H2
        (by exact (by decide : (0 : ℕ) ≠ 1))
        (fun hc => ((List.chain_cons.mp hchain).1 hc.1.symm).elim) hid rfl
        (by exact hq) (by exact hqh)
        (hlt ah (List.mem_cons_self ah H2) p (List.mem_cons_self p rest))]
      rw [ih (i + 1) _ S2 H2 hid (fun x hx => h32 x (List.mem_cons_of_mem p hx))
        (by
          have h2 := (List.chain_cons.mp hchain).2
          have hwr : wrap32 p.2 = p.2 :=
            Nat.mod_eq_of_lt (h32 p (List.mem_cons_self p rest))
          simpa [emuRec, hwr] using h2)
        (by simp [emuRec, Function.update_same]) (by simp [emuRec, Function.update_same])
        (by simpa using hlenS) (by simpa using hlenH)
        (fun x hx r hr => hlt x (List.mem_cons_of_mem ah hx) r (List.mem_cons_of_mem p hr))]
      have hwr : wrap32 p.2 = p.2 := Nat.mod_eq_of_lt (h32 p (List.mem_cons_self p rest))
      simp [emuRec, accLast, accTimes, emuEvsR, lastHost, hwr, Function.update_idem,
        Function.update_same, List.range'_succ]

lemma emuWriteStartsPhase (rid : ℕ) (sps : List (ℕ × ℕ)) :
    ∀ (i : ℕ) (ls : LoopSt),
      rid < 61 →
      (∀ p ∈ sps, p.2 < 2 ^ 32) →
      List.Chain (fun x y => x ≠ y) ls.prevHost (sps.map Prod.snd) →
      runEmu i (sps.map (fun p => emuRec rid 1 p.1 p.2)) ls =
        { ls with
          eng := { ls.eng with
            mPrevTimestamp := accLast ls.eng.mPrevTimestamp (sps.map Prod.fst),
            mWriteStarts := Function.update ls.eng.mWriteStarts (rid / 2)
              (ls.eng.mWriteStarts (rid / 2) ++
                accTimes ls.eng.mPrevTimestamp (sps.map Prod.fst)),
            mHostWriteStarts := Function.update ls.eng.mHostWriteStarts (rid / 2)
              (ls.eng.mHostWriteStarts (rid / 2) ++ sps.map Prod.snd) },
          prevHost := lastHost ls.prevHost sps,
          fwd := ls.fwd ++ List.range' i sps.length } := by
  induction sps with
  | nil =>
      intro i ls _ _ _
      simp [runEmu, accLast, accTimes, lastHost, Function.update_eq_self]
  | cons p rest ih =>
      intro i ls hid h32 hchain
      rw [List.map_cons]
      show runEmu (i + 1) (rest.map (fun p => emuRec rid 1 p.1 p.2))
        (stepEmu i (emuRec rid 1 p.1 p.2) ls) = _
      rw [stepEmu_write_start i (emuRec rid 1 p.1 p.2) ls
        (by exact (by decide : (0 : ℕ) ≠ 1))
        (fun hc => ((List.chain_cons.mp hchain).1 hc.1.symm).elim) hid rfl]
      rw [ih (i + 1) _ hid (fun x hx => h32 x (List.mem_cons_of_mem p hx))
        (by
          have h2 := (List.chain_cons.mp hchain).2
          have hwr : wrap32 p.2 = p.2 :=
            Nat.mod_eq_of_lt (h32 p (List.mem_cons_self p rest))
          simpa [emuRec, hwr] using h2)]
      have hwr : wrap32 p.2 = p.2 := Nat.mod_eq_of_lt (h32 p (List.mem_cons_self p rest))
      simp [emuRec, accLast, accTimes, lastHost, hwr, Function.update_idem,
        Function.update_same, List.range'_succ]

lemma emuWriteEndsPhase (rid : ℕ) (eps : List (ℕ × ℕ)) :
    ∀ (i : ℕ) (ls : LoopSt) (S H : List ℕ),
      rid < 61 →
      (∀ p ∈ eps, p.2 < 2 ^ 32) →
      List.Chain (fun x y => x ≠ y) ls.prevHost (eps.map Prod.snd) →
      ls.eng.mWriteStarts (rid / 2) = S →
      ls.eng.mHostWriteStarts (rid / 2) = H →
      eps.length ≤ S.length → eps.length ≤ H.length →
      (∀ ah ∈ H, ∀ p ∈ eps, ah < p.2) →
      runEmu i (eps.map (fun p => emuRec rid 2 p.1 p.2)) ls =
        { ls with
          eng := { ls.eng with
            mPrevTimestamp := accLast ls.eng.mPrevTimestamp (eps.map Prod.fst),
            mWriteStarts := Function.update ls.eng.mWriteStarts (rid / 2) (S.drop eps.length),
            mHostWriteStarts :=
              Function.update ls.eng.mHostWriteStarts (rid / 2) (H.drop eps.length) },
          prevHost := lastHost ls.prevHost eps,
          out := ls.out ++ emuEvsW (rid / 2) S H
            (accTimes ls.eng.mPrevTimestamp (eps.map Prod.fst)) (eps.map Prod.snd),
          fwd := ls.fwd ++ List.range' i eps.length } := by
  induction eps with
  | nil =>
      intro i ls S H _ _ _ hq hqh _ _ _
      rw [← hq, ← hqh]
      simp [runEmu, accLast, accTimes, emuEvsW, lastHost, Function.update_eq_self]
  | cons p rest ih =>
      intro i ls S H hid h32 hchain hq hqh hlenS hlenH hlt
      rcases S with _ | ⟨a, S2⟩
      · simp at hlenS
      rcases H with _ | ⟨ah, H2⟩
      · simp at hlenH
      rw [List.map_cons]
      show runEmu (i + 1) (rest.map (fun p => emuRec rid 2 p.1 p.2))
        (stepEmu i (emuRec rid 2 p.1 p.2) ls) = _
      rw [stepEmu_write_end_pop i (emuRec rid 2 p.1 p.2) ls a ah S2 H2
        (by exact (by decide : (0 : ℕ) ≠ 1))
        (fun hc => ((List.chain_cons.mp hchain).1 hc.1.symm).elim) hid rfl
        (by exact hq) (by exact hqh)
        (hlt ah (List.mem_cons_self ah H2) p (List.mem_cons_self p rest))]
      rw [ih (i + 1) _ S2 H2 hid (fun x hx => h32 x (List.mem_cons_of_mem p hx))
        (by
          have h2 := (List.chain_cons.mp hchain).2
          have hwr : wrap32 p.2 = p.2 :=
            Nat.mod_eq_of_lt (h32 p (List.mem_cons_self p rest))
          simpa [emuRec, hwr] using h2)
        (by simp [emuRec, Function.update_same]) (by simp [emuRec, Function.update_same])
        (by simpa using hlenS) (by simpa using hlenH)
        (fun x hx r hr => hlt x (List.mem_cons_of_mem ah hx) r (List.mem_cons_of_mem p hr))]
      have hwr : wrap32 p.2 = p.2 := Nat.mod_eq_of_lt (h32 p (List.mem_cons_self p rest))
      simp [emuRec, accLast, accTimes, emuEvsW, lastHost, hwr, Function.update_idem,
        Function.update_same, List.range'_succ]

lemma accTimes_length (l : List ℕ) : ∀ p : ℕ, (accTimes p l).length = l.length := by
  induction l with
  | nil => intro p; rfl
  | cons d ds ih => intro p; simp [accTimes, ih]

lemma hwPairR_out (ps : ℚ) (rid : ℕ) (starts ends : List ℕ) (t0 t1 : TraceRecord)
    (ls : LoopSt)
    (ht1 : t1.TraceID < 2)
    (h2 : 2 ≤ rid) (h61 : rid ≤ 61) (hpar : rid % 2 = 0)
    (hbs : ∀ a ∈ starts, a < 2 ^ 32) (hbe : ∀ b ∈ ends, b < 2 ^ 32)
    (hq : ls.eng.mReadStarts (rid / 2) = [])
    (hlen : ends.length ≤ starts.length) :
    (runHW ps 0 (t0 :: t1 :: (starts.map (hwStartRec rid) ++ ends.map (hwEndRec rid)))
        ls).out.map devProj =
      ls.out.map devProj ++
        (starts.zip ends).map (fun p => ("Read", rid / 2, p.1, p.2, burstLen p.1 p.2)) := by
  show (runHW ps 2 (starts.map (hwStartRec rid) ++ ends.map (hwEndRec rid))
      (stepHW ps 1 t1 (stepHW ps 0 t0 ls))).out.map devProj = _
  rw [stepHW_zero ps t0 ls]
  rw [stepHW_one_unsupported ps t1 _ (by omega) (by omega)]
  rw [runHW_append ps (starts.map (hwStartRec rid)) (ends.map (hwEndRec rid)) 2 _]
  rw [hwReadStartsPhase ps rid starts 2 _ (by omega) h2 h61 hpar hbs]
  rw [hwReadEndsPhase ps rid ends (2 + (starts.map (hwStartRec rid)).length) _ starts
    (by omega) h2 h61 hpar hbe
    (by simp [Function.update_same, trainUpd, hq]) hlen]
  rfl

lemma hwPairW_out (ps : ℚ) (rid : ℕ) (starts ends : List ℕ) (t0 t1 : TraceRecord)
    (ls : LoopSt)
    (ht1 : t1.TraceID < 2)
    (h2 : 2 ≤ rid) (h61 : rid ≤ 61) (hpar : rid % 2 = 1)
    (hbs : ∀ a ∈ starts, a < 2 ^ 32) (hbe : ∀ b ∈ ends, b < 2 ^ 32)
    (hq : ls.eng.mWriteStarts (rid / 2) = [])
    (hlen : ends.length ≤ starts.length) :
    (runHW ps 0 (t0 :: t1 :: (starts.map (hwStartRec rid) ++ ends.map (hwEndRec rid)))
        ls).out.map devProj =
      ls.out.map devProj ++
        (starts.zip ends).map (fun p => ("Write", rid / 2, p.1, p.2, burstLen p.1 p.2)) := by
  show (runHW ps 2 (starts.map (hwStartRec rid) ++ ends.map (hwEndRec rid))
      (stepHW ps 1 t1 (stepHW ps 0 t0 ls))).out.map devProj = _
  rw [stepHW_zero ps t0 ls]
  rw [stepHW_one_unsupported ps t1 _ (by omega) (by omega)]
  rw [runHW_append ps (starts.map (hwStartRec rid)) (ends.map (hwEndRec rid)) 2 _]
  rw [hwWriteStartsPhase ps rid starts 2 _ (by omega) h2 h61 hpar hbs]
  rw [hwWriteEndsPhase ps rid ends (2 + (starts.map (hwStartRec rid)).length) _ starts
    (by omega) h2 h61 hpar hbe
    (by simp [Function.update_same, trainUpd, hq]) hlen]
  rfl

lemma emuPairR_out (rid : ℕ) (sps eps : List (ℕ × ℕ)) (ls : LoopSt)
    (hid : rid < 61)
    (hs32 : ∀ p ∈ sps, p.2 < 2 ^ 32) (he32 : ∀ p ∈ eps, p.2 < 2 ^ 32)
    (hchainS : List.Chain (fun x y => x ≠ y) ls.prevHost (sps.map Prod.snd))
    (hchainE : List.Chain (fun x y => x ≠ y) (lastHost ls.prevHost sps) (eps.map Prod.snd))
    (hq : ls.eng.mReadStarts (rid / 2) = [])
    (hqh : ls.eng.mHostReadStarts (rid / 2) = [])
    (hlt : ∀ p ∈ sps, ∀ q ∈ eps, p.2 < q.2)
    (hlen : eps.length ≤ sps.length) :
    (runEmu 0 (sps.map (fun p => emuRec rid 4 p.1 p.2) ++
        eps.map (fun p => emuRec rid 8 p.1 p.2)) ls).out =
      ls.out ++ emuEvsR (rid / 2)
        (accTimes ls.eng.mPrevTimestamp (sps.map Prod.fst)) (sps.map Prod.snd)
        (accTimes (accLast ls.eng.mPrevTimestamp (sps.map Prod.fst)) (eps.map Prod.fst))
        (eps.map Prod.snd) := by
  rw [runEmu_append]
  rw [emuReadStartsPhase rid sps 0 ls hid hs32 hchainS]
  rw [emuReadEndsPhase rid eps (0 + (sps.map (fun p => emuRec rid 4 p.1 p.2)).length) _
    (accTimes ls.eng.mPrevTimestamp (sps.map Prod.fst)) (sps.map Prod.snd)
    hid he32 (by exact hchainE)
    (by simp [Function.update_same, hq]) (by simp [Function.update_same, hqh])
    (by rw [accTimes_length]; simpa using hlen) (by simpa using hlen)
    (by
      intro x hx r hr
      obtain ⟨p, hp, rfl⟩ := List.mem_map.mp hx
      exact hlt p hp r hr)]

lemma emuPairW_out (rid : ℕ) (sps eps : List (ℕ × ℕ)) (ls : LoopSt)
    (hid : rid < 61)
    (hs32 : ∀ p ∈ sps, p.2 < 2 ^ 32) (he32 : ∀ p ∈ eps, p.2 < 2 ^ 32)
    (hchainS : List.Chain (fun x y => x ≠ y) ls.prevHost (sps.map Prod.snd))
    (hchainE : List.Chain (fun x y => x ≠ y) (lastHost ls.prevHost sps) (eps.map Prod.snd))
    (hq : ls.eng.mWriteStarts (rid / 2) = [])
    (hqh : ls.eng.mHostWriteStarts (rid / 2) = [])
    (hlt : ∀ p ∈ sps, ∀ q ∈ eps, p.2 < q.2)
    (hlen : eps.length ≤ sps.length) :
    (runEmu 0 (sps.map (fun p => emuRec rid 1 p.1 p.2) ++
        eps.map (fun p => emuRec rid 2 p.1 p.2)) ls).out =
      ls.out ++ emuEvsW (rid / 2)
        (accTimes ls.eng.mPrevTimestamp (sps.map Prod.fst)) (sps.map Prod.snd)
        (accTimes (accLast ls.eng.mPrevTimestamp (sps.map Prod.fst)) (eps.map Prod.fst))
        (eps.map Prod.snd) := by
  rw [runEmu_append]
  rw [emuWriteStartsPhase rid sps 0 ls hid hs32 hchainS]
  rw [emuWriteEndsPhase rid eps (0 + (sps.map (fun p => emuRec rid 1 p.1 p.2)).length) _
    (accTimes ls.eng.mPrevTimestamp (sps.map Prod.fst)) (sps.map Prod.snd)
    hid he32 (by exact hchainE)
    (by simp [Function.update_same, hq]) (by simp [Function.update_same, hqh])
    (by rw [accTimes_length]; simpa using hlen) (by simpa using hlen)
    (by
      intro x hx r hr
      obtain ⟨p, hp, rfl⟩ := List.mem_map.mp hx
      exact hlt p hp r hr)]

/-- C1 (corrected): FIFO pairing of start and end events on one memory slot,
for records that actually reach the decode path.  Conjunct 1 interprets the
burst field: `burstLen a b = b - a + 1` whenever `a ≤ b < 2^32` (so a start
at device time 10 and an end at 15 give burst 6).  Conjuncts 2-3 (hardware
mode): when the batch carries the N starts followed by the N ends *after*
two leading clock-training records, on a supported id `2 ≤ rid ≤ 61` (even
for reads, odd for writes) with empty queue and clear bitmasks, `logTrace`
emits exactly N Read (resp. Write) transactions, the i-th pairing the i-th
start's device timestamp with the i-th end's, in original order, with burst
`burstLen start end`.  Conjuncts 4-5 (emulation mode): the same FIFO pairing
for N read (resp. write) starts followed by N ends, on the accumulated
device timestamps, under host timestamps that trigger no duplicate-host
skip. -/
theorem C1_fifo_pairing :
    (∀ a b : ℕ, a ≤ b → b < 2 ^ 32 → burstLen a b = b - a + 1) ∧
    (∀ (ps : ℚ) (cn pn : ℕ → String) (eng0 : Engine) (rv : List DeviceTrace)
        (t0 t1 : TraceRecord) (rid : ℕ) (starts ends : List ℕ),
      eng0.mNumTraceEvents < eng0.mMaxTraceEvents →
      t0.TraceID < 2 → t1.TraceID < 2 →
      2 ≤ rid → rid ≤ 61 → rid % 2 = 0 →
      (∀ a ∈ starts, a < 2 ^ 32) → (∀ b ∈ ends, b < 2 ^ 32) →
      eng0.mReadStarts (rid / 2) = [] →
      (∀ j, j < XSAM_MAX_NUMBER_SLOTS → eng0.mAccelMonStartedEvents j = 0) →
      starts.length = ends.length →
      (logTrace false ps cn pn eng0
          (t0 :: t1 :: (starts.map (hwStartRec rid) ++ ends.map (hwEndRec rid)))
          rv).out.map devProj =
        rv.map devProj ++
          (starts.zip ends).map (fun p => ("Read", rid / 2, p.1, p.2, burstLen p.1 p.2))) ∧
    (∀ (ps : ℚ) (cn pn : ℕ → String) (eng0 : Engine) (rv : List DeviceTrace)
        (t0 t1 : TraceRecord) (rid : ℕ) (starts ends : List ℕ),
      eng0.mNumTraceEvents < eng0.mMaxTraceEvents →
      t0.TraceID < 2 → t1.TraceID < 2 →
      2 ≤ rid → rid ≤ 61 → rid % 2 = 1 →
      (∀ a ∈ starts, a < 2 ^ 32) → (∀ b ∈ ends, b < 2 ^ 32) →
      eng0.mWriteStarts (rid / 2) = [] →
      (∀ j, j < XSAM_MAX_NUMBER_SLOTS → eng0.mAccelMonStartedEvents j = 0) →
      starts.length = ends.length →
      (logTrace false ps cn pn eng0
          (t0 :: t1 :: (starts.map (hwStartRec rid) ++ ends.map (hwEndRec rid)))
          rv).out.map devProj =
        rv.map devProj ++
          (starts.zip ends).map (fun p => ("Write", rid / 2, p.1, p.2, burstLen p.1 p.2))) ∧
    (∀ (ps : ℚ) (cn pn : ℕ → String) (eng0 : Engine) (rv : List DeviceTrace)
        (rid : ℕ) (sps eps : List (ℕ × ℕ)),
      eng0.mNumTraceEvents < eng0.mMaxTraceEvents →
      rid < 61 →
      (∀ p ∈ sps, p.2 < 2 ^ 32) → (∀ p ∈ eps, p.2 < 2 ^ 32) →
      List.Chain (fun x y => x ≠ y) 4294967295 (sps.map Prod.snd) →
      List.Chain (fun x y => x ≠ y) (lastHost 4294967295 sps) (eps.map Prod.snd) →
      eng0.mReadStarts (rid / 2) = [] →
      eng0.mHostReadStarts (rid / 2) = [] →
      (∀ p ∈ sps, ∀ q ∈ eps, p.2 < q.2) →
      sps.length = eps.length →
      (logTrace true ps cn pn eng0
          (sps.map (fun p => emuRec rid 4 p.1 p.2) ++
           eps.map (fun p => emuRec rid 8 p.1 p.2)) rv).out =
        rv ++ emuEvsR (rid / 2)
          (accTimes eng0.mPrevTimestamp (sps.map Prod.fst)) (sps.map Prod.snd)
          (accTimes (accLast eng0.mPrevTimestamp (sps.map Prod.fst)) (eps.map Prod.fst))
          (eps.map Prod.snd)) ∧
    (∀ (ps : ℚ) (cn pn : ℕ → String) (eng0 : Engine) (rv : List DeviceTrace)
        (rid : ℕ) (sps eps : List (ℕ × ℕ)),
      eng0.mNumTraceEvents < eng0.mMaxTraceEvents →
      rid < 61 →
      (∀ p ∈ sps, p.2 < 2 ^ 32) → (∀ p ∈ eps, p.2 < 2 ^ 32) →
      List.Chain (fun x y => x ≠ y) 4294967295 (sps.map Prod.snd) →
      List.Chain (fun x y => x ≠ y) (lastHost 4294967295 sps) (eps.map Prod.snd) →
      eng0.mWriteStarts (rid / 2) = [] →
      eng0.mHostWriteStarts (rid / 2) = [] →
      (∀ p ∈ sps, ∀ q ∈ eps, p.2 < q.2) →
      sps.length = eps.length →
      (logTrace true ps cn pn eng0
          (sps.map (fun p => emuRec rid 1 p.1 p.2) ++
           eps.map (fun p => emuRec rid 2 p.1 p.2)) rv).out =
        rv ++ emuEvsW (rid / 2)
          (accTimes eng0.mPrevTimestamp (sps.map Prod.fst)) (sps.map Prod.snd)
          (accTimes (accLast eng0.mPrevTimestamp (sps.map Prod.fst)) (eps.map Prod.fst))
          (eps.map Prod.snd)) := by
  refine ⟨burstLen_eq, ?_, ?_, ?_, ?_⟩
  · intro ps cn pn eng0 rv t0 t1 rid starts ends hcap ht0 ht1 h2 h61 hpar hbs hbe hq hmask hlen
    have hall : ∀ r ∈ (t0 :: t1 :: (starts.map (hwStartRec rid) ++ ends.map (hwEndRec rid))),
        r.TraceID < 64 := by
      intro r hr
      rcases List.mem_cons.mp hr with rfl | hr
      · omega
      rcases List.mem_cons.mp hr with rfl | hr
      · omega
      rcases List.mem_append.mp hr with hr | hr
      · obtain ⟨x, hx, rfl⟩ := List.mem_map.mp hr
        show rid < 64
        omega
      · obtain ⟨x, hx, rfl⟩ := List.mem_map.mp hr
        show rid < 64
        omega
    rw [logTrace_hw_eq ps cn pn eng0 _ rv hcap (by simp)]
    simp only []
    rw [cuApprox_noop cn pn _ (by
      intro j hj
      rw [runHW_mask ps _ 0 _ hall]
      exact hmask j hj)]
    exact hwPairR_out ps rid starts ends t0 t1 _ ht1 h2 h61 hpar hbs hbe (by exact hq)
      (by omega)
  · intro ps cn pn eng0 rv t0 t1 rid starts ends hcap ht0 ht1 h2 h61 hpar hbs hbe hq hmask hlen
    have hall : ∀ r ∈ (t0 :: t1 :: (starts.map (hwStartRec rid) ++ ends.map (hwEndRec rid))),
        r.TraceID < 64 := by
      intro r hr
      rcases List.mem_cons.mp hr with rfl | hr
      · omega
      rcases List.mem_cons.mp hr with rfl | hr
      · omega
      rcases List.mem_append.mp hr with hr | hr
      · obtain ⟨x, hx, rfl⟩ := List.mem_map.mp hr
        show rid < 64
        omega
      · obtain ⟨x, hx, rfl⟩ := List.mem_map.mp hr
        show rid < 64
        omega
    rw [logTrace_hw_eq ps cn pn eng0 _ rv hcap (by simp)]
    simp only []
    rw [cuApprox_noop cn pn _ (by
      intro j hj
      rw [runHW_mask ps _ 0 _ hall]
      exact hmask j hj)]
    exact hwPairW_out ps rid starts ends t0 t1 _ ht1 h2 h61 hpar hbs hbe (by exact hq)
      (by omega)
  · intro ps cn pn eng0 rv rid sps eps hcap hid hs32 he32 hchainS hchainE hq hqh hlt hlen
    rcases sps with _ | ⟨p0, sps2⟩
    · have heps : eps = [] := List.eq_nil_of_length_eq_zero (by simpa using hlen.symm)
      subst heps
      rw [logTrace_entry true ps cn pn eng0 _ rv (Or.inr (by simp))]
      simp [emuEvsR, accTimes]
    · rw [logTrace_emu_eq ps cn pn eng0 _ rv hcap (by simp)]
      simp only []
      exact emuPairR_out rid (p0 :: sps2) eps _ hid hs32 he32 (by exact hchainS)
        (by exact hchainE) (by exact hq) (by exact hqh) hlt (by omega)
  · intro ps cn pn eng0 rv rid sps eps hcap hid hs32 he32 hchainS hchainE hq hqh hlt hlen
    rcases sps with _ | ⟨p0, sps2⟩
    · have heps : eps = [] := List.eq_nil_of_length_eq_zero (by simpa using hlen.symm)
      subst heps
      rw [logTrace_entry true ps cn pn eng0 _ rv (Or.inr (by simp))]
      simp [emuEvsW, accTimes]
    · rw [logTrace_emu_eq ps cn pn eng0 _ rv hcap (by simp)]
      simp only []
      exact emuPairW_out rid (p0 :: sps2) eps _ hid hs32 he32 (by exact hchainS)
        (by exact hchainE) (by exact hq) (by exact hqh) hlt (by omega)

/-- C1 counterexample record: a valid hardware read-start on id 2 (slot 1)
at device time 10. -/
def c1s : TraceRecord := ⟨10, 0, 2, 0, XCL_PERF_MON_START_EVENT, 0, 0⟩

/-- C1 counterexample record: the matching read-end at device time 15. -/
def c1e : TraceRecord := ⟨15, 0, 2, 0, XCL_PERF_MON_END_EVENT, 0, 0⟩

set_option maxRecDepth 8000 in
/-- Counterexample for C1 as stated (the spec's Scenario A taken literally):
the hardware batch holding exactly one read-start at device time 10 followed
by its read-end at device time 15 does NOT produce
`{Read, start = 10, end = 15, burst = 6}`: the start record is consumed by
clock training, and the end mis-pairs into the degenerate
`{Read, start = 15, end = 15, burst = 1}`. -/
theorem C1_counterexample :
    (logTrace false 0 noNames noNames initEngine [c1s, c1e] []).out.map devProj =
      [("Read", 1, 15, 15, 1)] ∧
    (logTrace false 0 noNames noNames initEngine [c1s, c1e] []).out.map devProj ≠
      [("Read", 1, 10, 15, burstLen 10 15)] := by
  constructor
  · decide
  · decide

/-- Witness for C1 at a concrete input: with two filler training records in
front, the hardware batch start@10 / end@15 on id 2 pairs into one Read with
burst `burstLen 10 15`, and `burstLen 10 15 = 15 - 10 + 1` (= 6). -/
theorem C1_fifo_witness :
    (logTrace false 0 noNames noNames initEngine
        (dfltRec :: dfltRec :: ([10].map (hwStartRec 2) ++ [15].map (hwEndRec 2)))
        []).out.map devProj =
      ([] : List DeviceTrace).map devProj ++
        ([10].zip [15]).map (fun p => ("Read", (2 : ℕ) / 2, p.1, p.2, burstLen p.1 p.2)) ∧
    burstLen 10 15 = 15 - 10 + 1 :=
  ⟨C1_fifo_pairing.2.1 0 noNames noNames initEngine [] dfltRec dfltRec 2 [10] [15]
      (by decide) (by decide) (by decide) (by decide) (by decide) (by decide)
      (by decide) (by decide) rfl (fun j hj => rfl) rfl,
    C1_fifo_pairing.1 10 15 (by decide) (by decide)⟩

end XRTTrace
